import Mathlib

/-!
Voix: the authorise-then-execute decision chain.

A shallow embedding of the C++ sources `src/src/config.cpp`, `src/src/pam_auth.cpp`,
`src/src/security.cpp`, `src/src/utils.cpp` and `src/src/voix.cpp`.

* A `std::string` is a list of characters (`Str`); the code only compares
  characters with ASCII constants and classifies them with `std::isalnum`.
* A name handed to the C library goes through `c_str`, which stops at a NUL: an
  identity "has an entry" when `getpwnam` finds one for `name.c_str()`.
* The operating system is a record `OS` of the library calls the code makes
  (`geteuid`, `getpwuid`, `getpwnam`, `getgrgid`, `getgrouplist`, opening a file,
  `fork`, `execvp`); one record is one snapshot of the machine, and every function
  that queries the machine takes it as an argument.
* The two `std::map` members of `Config` are finite maps written as functions
  into `Option`.
* `Voix::execute` returns its `int` together with the list of calls it made to
  `Security::logEvent` and `Utils::executeCommand`, in order.
-/

set_option linter.dupNamespace false

namespace Voix

/-! ## Strings and streams -/

/-- A `std::string`: a finite sequence of `char`. -/
abbrev Str := List Char

/-- What a C library function reads from `s.c_str()`: the characters before the first NUL. -/
def c_str (s : Str) : Str := s.takeWhile (fun c => c != '\x00')

/-- One `std::getline(stream, out, d)` on a stream whose unread content is `s`:
`none` when nothing is left to read (the call fails and `out` is not used),
otherwise the characters before the first `d` and the content left unread after
that `d` (the delimiter is consumed and dropped). -/
def getline (d : Char) (s : Str) : Option (Str × Str) :=
  match s with
  | [] => none
  | _ :: _ => some (s.takeWhile (fun c => c != d), (s.dropWhile (fun c => c != d)).drop 1)

/-- The values successively read by `while (std::getline(stream, out, d))` from a
stream holding `s`: the pieces between delimiters, without a last empty piece
(at end of input a read that extracts nothing fails and ends the loop). -/
def getlines (d : Char) : Str → List Str
  | [] => []
  | c :: cs =>
    if c = d then [] :: getlines d cs
    else
      match getlines d cs with
      | [] => [[c]]
      | l :: ls => (c :: l) :: ls

/-- Membership in the character set `" \t"`. -/
def isBlank (c : Char) : Bool := c = ' ' || c = '\t'

/-- The pair of statements
`s.erase(0, s.find_first_not_of(" \t")); s.erase(s.find_last_not_of(" \t") + 1);`
The first removes the leading run of spaces and tabs (the whole string when it
has nothing else: the count is then `npos`); the second removes the trailing run
(on a string with nothing else `npos + 1` wraps to `0` and everything goes). -/
def trim (s : Str) : Str := ((s.dropWhile isBlank).reverse.dropWhile isBlank).reverse

/-- The test `hay.find(needle) != std::string::npos` for a string `needle`. -/
def containsStr (hay needle : Str) : Bool := hay.tails.any (fun t => needle.isPrefixOf t)

/-- The comma-separated list loop used throughout:
`while (std::getline(stream, x, ',')) { trim x; if (!x.empty()) out.push_back(x); }` -/
def splitList (value : Str) : List Str :=
  ((getlines ',' value).map trim).filter (fun x => !x.isEmpty)

/-! ## The operating system -/

/-- The fields of `struct passwd` that the code reads. -/
structure Passwd where
  pw_name : Str
  pw_uid : Nat
  pw_gid : Nat
deriving DecidableEq, Repr

/-- How a child process ended, as `waitpid` reports it: `exited n` is a normal
exit (`WIFEXITED` holds and `WEXITSTATUS` is `n % 256`), `signaled n` a death by
signal `n` (`WIFEXITED` does not hold). -/
inductive WaitStatus where
  | exited (status : Nat)
  | signaled (sig : Nat)
deriving DecidableEq, Repr

/-- One snapshot of the machine, as the library calls of the code see it. -/
structure OS where
  /-- The effective user id of the process. -/
  geteuid : Nat
  /-- The call `getpwuid(uid)`; `none` is a null pointer. -/
  getpwuid : Nat → Option Passwd
  /-- The call `getpwnam(name)`; `none` is a null pointer. -/
  getpwnam : Str → Option Passwd
  /-- The call `getgrgid(gid)`: the `gr_name` of the entry; `none` is a null pointer. -/
  getgrgid : Nat → Option Str
  /-- The group ids `getgrouplist(name, gid, ...)` reports. -/
  getgrouplist : Str → Nat → List Nat
  /-- Opening a path for reading and reading it whole; `none` when it cannot be opened. -/
  readFile : Str → Option Str
  /-- Whether `fork()` succeeds. -/
  forkOk : Bool
  /-- The call `execvp(file, argv)` in the child. The first argument is the
  passwd entry whose ids the child passed to `setuid` and `setgid` beforehand
  (`none` when it made no such call). `none` as a result: `execvp` returned (it
  failed); `some w`: the image was replaced and the child then ended as `w`. -/
  execvp : Option Passwd → Str → List Str → Option WaitStatus

/-- A sample machine built from tables: a passwd table, a group table
(name, gid, member names) and the files that can be opened. `fork` succeeds and
`execvp` finds `/bin/true` only. -/
def OS.ofTables (euid : Nat) (passwd : List Passwd)
    (groups : List (Str × Nat × List Str)) (files : List (Str × Str)) : OS where
  geteuid := euid
  getpwuid := fun uid => passwd.find? (fun p => p.pw_uid == uid)
  getpwnam := fun name => passwd.find? (fun p => p.pw_name == name)
  getgrgid := fun gid => (groups.find? (fun g => g.2.1 == gid)).map (fun g => g.1)
  getgrouplist := fun name gid =>
    gid :: ((groups.filter (fun g => g.2.2.contains name && g.2.1 != gid)).map (fun g => g.2.1))
  readFile := fun path => (files.find? (fun f => f.1 == path)).map (fun f => f.2)
  forkOk := true
  execvp := fun _ file _ =>
    if file = "/bin/true".toList then some (WaitStatus.exited 0) else none

/-! ## `Config` (config.cpp) -/

/-- The two private members of `class Config`. -/
structure Config where
  /-- The member `std::map<std::string, std::string> config_data_`. -/
  config_data_ : Str → Option Str
  /-- The member `std::map<std::string, std::vector<std::string>> user_commands_`. -/
  user_commands_ : Str → Option (List Str)

/-- A default-constructed `Config`: both maps empty. -/
def Config.empty : Config := ⟨fun _ => none, fun _ => none⟩

/-- Model of `Config::parseConfigLine`. -/
def Config.parseConfigLine (c : Config) (line : Str) : Config :=
  if line.contains ':' && !line.contains '=' then
    match getline ':' line with
    | none => c
    | some (username, rest) =>
      match getline '\n' rest with
      | none => c
      | some (commands, _) =>
        let username := trim username
        let commands := trim commands
        let cmd_list := splitList commands
        { c with user_commands_ := Function.update c.user_commands_ username (some cmd_list) }
  else if line.contains '=' then
    match getline '=' line with
    | none => c
    | some (key, rest) =>
      match getline '\n' rest with
      | none => c
      | some (value, _) =>
        let key := trim key
        let value := trim value
        { c with config_data_ := Function.update c.config_data_ key (some value) }
  else c

/-- The body of the `while (std::getline(config_file, line))` loop of `Config::load`. -/
def Config.loadLine (c : Config) (line : Str) : Config :=
  match line with
  | [] => c
  | ch :: _ => if ch = '#' then c else c.parseConfigLine line

/-- The loop of `Config::load` over the text of an opened file. -/
def Config.loadText (c : Config) (text : Str) : Config :=
  (getlines '\n' text).foldl Config.loadLine c

/-- Model of `Config::load`: the returned flag and the store afterwards. -/
def Config.load (c : Config) (os : OS) (config_path : Str) : Bool × Config :=
  match os.readFile (c_str config_path) with
  | none => (false, c)
  | some text => (true, c.loadText text)

/-- Model of `Config::isUserAllowed`. -/
def Config.isUserAllowed (c : Config) (username : Str) : Bool :=
  let inList :=
    match c.config_data_ "allowed_users".toList with
    | some value => ((getlines ',' value).map trim).any (fun user => user == username)
    | none => false
  if inList then true else (c.user_commands_ username).isSome

/-- Model of `Config::getAllowedCommands`. -/
def Config.getAllowedCommands (c : Config) (username : Str) : List Str :=
  match c.user_commands_ username with
  | some cmds => cmds
  | none => []

/-- Model of `Config::set`. -/
def Config.set (c : Config) (key value : Str) : Config :=
  { c with config_data_ := Function.update c.config_data_ key (some value) }

/-- Model of `Config::get`. -/
def Config.get (c : Config) (key : Str) : Option Str := c.config_data_ key


/-! ## `PAMAuth` (pam_auth.cpp) -/

/-- Model of `PAMAuth::readFile`. -/
def PAMAuth.readFile (os : OS) (path : Str) : Option Str := os.readFile (c_str path)

/-- Model of `PAMAuth::userExists`. -/
def PAMAuth.userExists (os : OS) (username : Str) : Bool :=
  (os.getpwnam (c_str username)).isSome

/-- Model of `PAMAuth::getUserGroups`: the name of the primary group, then the names of
the groups `getgrouplist` reports. The first `getgrouplist` call, made with room for
no group, returns `-1` exactly when there is at least one group to report; the
second call then fills the buffer (allocation is taken to succeed). Group ids
without an entry are skipped. -/
def PAMAuth.getUserGroups (os : OS) (username : Str) : List Str :=
  match os.getpwnam (c_str username) with
  | none => []
  | some pw =>
    let primary := (os.getgrgid pw.pw_gid).toList
    let groups_list := os.getgrouplist (c_str username) pw.pw_gid
    if 0 < groups_list.length then primary ++ groups_list.filterMap os.getgrgid
    else primary

/-- Model of `PAMAuth::isInAdminGroup`. -/
def PAMAuth.isInAdminGroup (os : OS) (username : Str) : Bool :=
  let groups := PAMAuth.getUserGroups os username
  let admin_groups : List Str :=
    ["wheel".toList, "sudo".toList, "admin".toList, "adm".toList, "voix".toList]
  groups.any (fun group => admin_groups.any (fun admin_group => group == admin_group))

/-- Model of `PAMAuth::isInVoixAdminGroup`. -/
def PAMAuth.isInVoixAdminGroup (os : OS) (username : Str) : Bool :=
  let groups := PAMAuth.getUserGroups os username
  let voix_groups : List Str := ["voix".toList, "voix-admin".toList]
  groups.any (fun group => voix_groups.any (fun voix_group => group == voix_group))

/-- Model of `PAMAuth::isInWheelGroup`. -/
def PAMAuth.isInWheelGroup (os : OS) (username : Str) : Bool :=
  (PAMAuth.getUserGroups os username).any (fun group => group == "wheel".toList)

/-- Model of `PAMAuth::getSudoersUsers`. -/
def PAMAuth.getSudoersUsers : List Str := []

/-- Model of `PAMAuth::hasSudoPrivilege`. -/
def PAMAuth.hasSudoPrivilege (_username : Str) : Bool := false

/-- What one line of the configuration adds to the list in the loop shared by
`PAMAuth::readVoixAllowedUsers` (`wanted` is `allowed_users`) and
`PAMAuth::readVoixAllowedGroups` (`wanted` is `allowed_groups`): nothing for an
empty line, a line starting with `#`, a line without the text `wanted`, a line
on which one of the two reads fails, or a line whose trimmed key is not `wanted`. -/
def PAMAuth.readVoixLine (wanted : Str) (line : Str) : List Str :=
  match line with
  | [] => []
  | ch :: _ =>
    if ch = '#' then []
    else if containsStr line wanted then
      match getline '=' line with
      | none => []
      | some (key, rest) =>
        match getline '\n' rest with
        | none => []
        | some (value, _) =>
          let key := trim key
          let value := trim value
          if key = wanted then splitList value else []
    else []

/-- Model of `PAMAuth::readVoixAllowedUsers`. -/
def PAMAuth.readVoixAllowedUsers (os : OS) : List Str :=
  match PAMAuth.readFile os "/etc/voix.conf".toList with
  | none => []
  | some voix_config =>
    ((getlines '\n' voix_config).map (PAMAuth.readVoixLine "allowed_users".toList)).flatten

/-- Model of `PAMAuth::readVoixAllowedGroups`. -/
def PAMAuth.readVoixAllowedGroups (os : OS) : List Str :=
  match PAMAuth.readFile os "/etc/voix.conf".toList with
  | none => []
  | some voix_config =>
    ((getlines '\n' voix_config).map (PAMAuth.readVoixLine "allowed_groups".toList)).flatten

/-- Model of `PAMAuth::isAllowedInVoixConfig`. -/
def PAMAuth.isAllowedInVoixConfig (os : OS) (username : Str) : Bool :=
  let allowed_users := PAMAuth.readVoixAllowedUsers os
  if allowed_users.any (fun allowed_user => allowed_user == username) then true
  else
    let allowed_groups := PAMAuth.readVoixAllowedGroups os
    let user_groups := PAMAuth.getUserGroups os username
    user_groups.any (fun group => allowed_groups.any (fun allowed_group => group == allowed_group))

/-- Model of `PAMAuth::authenticate`. -/
def PAMAuth.authenticate (os : OS) (username : Str) : Bool :=
  if !PAMAuth.userExists os username then false
  else if username = "root".toList then true
  else if PAMAuth.isInWheelGroup os username then true
  else if PAMAuth.isInVoixAdminGroup os username then true
  else PAMAuth.isAllowedInVoixConfig os username

/-! ## `Security` (security.cpp) -/

/-- Model of `Security::validateUser`; `std::isalnum` is taken in the "C" locale. -/
def Security.validateUser (os : OS) (username : Str) : Bool :=
  if username.isEmpty || 32 < username.length then false
  else if username.any (fun c => !c.isAlphanum && c != '_' && c != '-') then false
  else (os.getpwnam (c_str username)).isSome

/-- The table `dangerous_commands` of `Security::isDangerousCommand`. -/
def Security.dangerous_commands : List Str :=
  ["su".toList, "sudo".toList, "doas".toList, "pkexec".toList, "bash".toList, "sh".toList,
   "zsh".toList, "fish".toList,
   "dd".toList, "mkfs".toList, "fdisk".toList, "parted".toList, "rm".toList, "rmdir".toList,
   "chmod".toList, "chown".toList,
   "kill".toList, "killall".toList, "pkill".toList, "systemctl".toList, "service".toList,
   "chroot".toList, "unshare".toList, "nsenter".toList, "capsh".toList]

/-- Model of `Security::isDangerousCommand`. -/
def Security.isDangerousCommand (command : Str) : Bool :=
  Security.dangerous_commands.any (fun dangerous => command == dangerous)

/-- The constant `dangerous_chars` of `Security::containsShellMetacharacters`. -/
def Security.dangerous_chars : Str := "|&;$`()\x7b\x7d[]<>?!~*\\\"'".toList

/-- Model of `Security::containsShellMetacharacters`. -/
def Security.containsShellMetacharacters (str : Str) : Bool :=
  str.any (fun c => Security.dangerous_chars.contains c)

/-- Model of `Security::validateCommand`. -/
def Security.validateCommand (command : Str) (args : List Str) : Bool :=
  if Security.isDangerousCommand command then false
  else if Security.containsShellMetacharacters command then false
  else if args.any (fun arg => Security.containsShellMetacharacters arg) then false
  else true

/-- Model of `Security::isSafePath`. -/
def Security.isSafePath (path : Str) : Bool :=
  if containsStr path "..".toList then false
  else if containsStr path "/etc/shadow".toList || containsStr path "/etc/sudoers".toList
      || containsStr path "/root".toList then false
  else true

/-- Model of `Security::getCurrentUser`. -/
def Security.getCurrentUser (os : OS) : Str :=
  match os.getpwuid os.geteuid with
  | some pw => pw.pw_name
  | none => "unknown".toList


/-! ## `Utils` (utils.cpp) -/

/-- The system calls the child branch of `Utils::executeCommand` makes. -/
inductive Sys where
  | setuid (uid : Nat)
  | setgid (gid : Nat)
  | execvp (file : Str) (argv : List Str)
  | _exit (status : Nat)
deriving DecidableEq, Repr

/-- The macro `WIFEXITED` of `<sys/wait.h>`. -/
def WIFEXITED : WaitStatus → Bool
  | WaitStatus.exited _ => true
  | WaitStatus.signaled _ => false

/-- The macro `WEXITSTATUS` of `<sys/wait.h>`: the low eight bits of the exit status. -/
def WEXITSTATUS : WaitStatus → Nat
  | WaitStatus.exited status => status % 256
  | WaitStatus.signaled _ => 0

/-- The parent branch of `Utils::executeCommand` once `waitpid` has stored `status`. -/
def Utils.waitResult (status : WaitStatus) : Int :=
  if WIFEXITED status then (WEXITSTATUS status : Int) else -1

/-- Model of `Utils::executeCommand`: the returned `int`, and the system calls made by
the child in order (none when `fork` fails). The model covers the runs in which the
child ends and `waitpid` reports it. -/
def Utils.executeCommand (os : OS) (command : Str) (args : List Str)
    (user : Option Str) : Int × List Sys :=
  if !os.forkOk then (-1, [])
  else
    let pw : Option Passwd :=
      match user with
      | some name => os.getpwnam (c_str name)
      | none => none
    let switches : List Sys :=
      match pw with
      | some pw => [Sys.setuid pw.pw_uid, Sys.setgid pw.pw_gid]
      | none => []
    let argv : List Str := c_str command :: args.map c_str
    match os.execvp pw (c_str command) argv with
    | none =>
      (Utils.waitResult (WaitStatus.exited 127),
        switches ++ [Sys.execvp (c_str command) argv, Sys._exit 127])
    | some status =>
      (Utils.waitResult status, switches ++ [Sys.execvp (c_str command) argv])

/-! ## `Voix` (voix.cpp) -/

/-- The members of `class Voix` that hold data. -/
structure Voix where
  /-- The store behind `config_`. -/
  config_ : Config
  /-- The member `config_path_`. -/
  config_path_ : Str

/-- The constructor `Voix::Voix(config_path)`: a fresh store, loaded from the path. -/
def Voix.construct (os : OS) (config_path : Str) : Voix :=
  { config_ := (Config.empty.load os config_path).2, config_path_ := config_path }

/-- A call that `Voix::execute` makes to a collaborator. -/
inductive Call where
  | logEvent (event user : Str)
  | executeCommand (command : Str) (args : List Str) (user : Option Str)
deriving DecidableEq, Repr

/-- Model of `Voix::authenticate`. -/
def Voix.authenticate (_v : Voix) (os : OS) : Bool :=
  let current_user := Security.getCurrentUser os
  PAMAuth.authenticate os current_user

/-- Model of `Voix::isAllowed`. -/
def Voix.isAllowed (_v : Voix) (os : OS) : Bool :=
  let current_user := Security.getCurrentUser os
  if !PAMAuth.userExists os current_user then false
  else if PAMAuth.isAllowedInVoixConfig os current_user then true
  else if PAMAuth.isInAdminGroup os current_user then true
  else if PAMAuth.isInVoixAdminGroup os current_user then true
  else false

/-- Model of `Voix::validateCommand`. -/
def Voix.validateCommand (v : Voix) (os : OS) (command : Str) : Bool :=
  let current_user := Security.getCurrentUser os
  let allowed_commands := v.config_.getAllowedCommands current_user
  if allowed_commands.isEmpty then PAMAuth.hasSudoPrivilege current_user
  else if allowed_commands.length == 1 && allowed_commands.head? == some "*".toList then true
  else allowed_commands.any (fun allowed_cmd => command == allowed_cmd)

/-- Model of `Voix::execute`: the returned `int` and the calls made to
`Security::logEvent` and `Utils::executeCommand`, in order. -/
def Voix.execute (v : Voix) (os : OS) (command : Str) (args : List Str)
    (user : Option Str) : Int × List Call :=
  let current_user := Security.getCurrentUser os
  let requested := Call.logEvent ("Command execution requested: ".toList ++ command) current_user
  if !v.authenticate os then
    (1, [requested,
      Call.logEvent ("Authentication failed for user: ".toList ++ current_user) current_user])
  else if !Security.validateUser os current_user then
    (1, [requested,
      Call.logEvent ("Unauthorized user attempt: ".toList ++ current_user) current_user])
  else if !v.validateCommand os command then
    (1, [requested,
      Call.logEvent ("Invalid command attempted: ".toList ++ command) current_user])
  else
    ((Utils.executeCommand os command args user).1,
      [requested, Call.executeCommand command args user])


/-! ## The entry point `main` (main.cpp) -/

/-- What the argument loop of `main` ends with: a `return` from inside the loop,
or the values of `target_user`, `config_path` and `command_args` after it. -/
inductive Parsed where
  | exit (code : Int)
  | run (target_user config_path : Str) (command_args : List Str)
deriving DecidableEq, Repr

/-- The argument loop of `main` over `argv[i], ..., argv[argc - 1]`, with the
current values of `target_user` and `config_path`. -/
def parseArgs : List Str → Str → Str → Parsed
  | [], target_user, config_path => Parsed.run target_user config_path []
  | arg :: rest, target_user, config_path =>
    if arg = "-h".toList ∨ arg = "--help".toList then Parsed.exit 0
    else if arg = "-v".toList ∨ arg = "--version".toList then Parsed.exit 0
    else if arg = "-u".toList ∨ arg = "--user".toList then
      match rest with
      | [] => Parsed.exit 1
      | value :: rest' => parseArgs rest' value config_path
    else if arg = "-c".toList ∨ arg = "--config".toList then
      match rest with
      | [] => Parsed.exit 1
      | value :: rest' => parseArgs rest' target_user value
    else Parsed.run target_user config_path (arg :: rest)

/-- Model of `main`: the exit code, and the calls made to `Security::logEvent` and
`Utils::executeCommand`, in order (what is printed is left out). -/
def main (os : OS) (argv : List Str) : Int × List Call :=
  if argv.length < 2 then (1, [])
  else
    match parseArgs (argv.drop 1) "root".toList "/etc/voix.conf".toList with
    | Parsed.exit code => (code, [])
    | Parsed.run target_user config_path command_args =>
      match command_args with
      | [] => (1, [])
      | command :: args =>
        let voix := Voix.construct os config_path
        if !voix.isAllowed os then (1, [])
        else if !voix.validateCommand os command then (1, [])
        else voix.execute os command args (some target_user)

/-! ## Sample machines -/

/-- A sample machine: accounts `root`, `alice` (in `wheel`), `bob` (in no
administrative group) and `carol` (in `voix-admin`), run by the account with user
id `euid`; `/etc/voix.conf` holds `conf`, or cannot be opened when `conf` is `none`. -/
def sampleOS (euid : Nat) (conf : Option Str) : OS :=
  OS.ofTables euid
    [⟨"root".toList, 0, 0⟩, ⟨"alice".toList, 1000, 1000⟩, ⟨"bob".toList, 1001, 1001⟩,
     ⟨"carol".toList, 1002, 1002⟩]
    [("root".toList, 0, []), ("wheel".toList, 10, ["alice".toList]),
     ("voix-admin".toList, 20, ["carol".toList]),
     ("alice".toList, 1000, []), ("bob".toList, 1001, []), ("carol".toList, 1002, [])]
    (match conf with
     | some text => [("/etc/voix.conf".toList, text)]
     | none => [])

/-- The orchestrator constructed on a sample machine with the default path. -/
def sampleVoix (euid : Nat) (conf : Option Str) : Voix :=
  Voix.construct (sampleOS euid conf) "/etc/voix.conf".toList

/-- A sample machine for account names: accounts named with 32 letters `a`,
with 33 letters `a`, `john.doe` and `web_admin-2`; no group table and no file. -/
def sampleNamesOS : OS :=
  OS.ofTables 2000
    [⟨List.replicate 32 'a', 2000, 2000⟩, ⟨List.replicate 33 'a', 2001, 2001⟩,
     ⟨"john.doe".toList, 2002, 2002⟩, ⟨"web_admin-2".toList, 2003, 2003⟩]
    [] []

/-- The sample machine with `fork` failing. -/
def sampleNoForkOS : OS := { sampleOS 0 none with forkOk := false }

/-- The sample machine on which every program started is killed by signal 9. -/
def sampleKilledOS : OS :=
  { sampleOS 0 none with execvp := fun _ _ _ => some (WaitStatus.signaled 9) }

/-- The condition of the round-trip property on an identity name or a command
token: not empty, without `,`, `:`, `=` or a newline, and without a space or a
tab at either end. -/
def PlainToken (t : Str) : Prop :=
  t ≠ [] ∧ (∀ ch ∈ t, ch ≠ ',' ∧ ch ≠ ':' ∧ ch ≠ '=' ∧ ch ≠ '\n') ∧
  (∀ ch ∈ t.head?, isBlank ch = false) ∧ (∀ ch ∈ t.getLast?, isBlank ch = false)

instance (t : Str) : Decidable (PlainToken t) := by
  unfold PlainToken
  infer_instance

/-- A sample store, loaded from three lines: the allow-list `bob , carol`, a
rule for `alice`, and another key naming `dave`. -/
def sampleStore : Config :=
  Config.empty.loadText "allowed_users = bob , carol\nalice: ls\nother = dave\n".toList

/-- The sample accounts of `sampleOS` on a machine whose readable files are
the given list of paths and contents. -/
def sampleFilesOS (euid : Nat) (files : List (Str × Str)) : OS :=
  OS.ofTables euid
    [⟨"root".toList, 0, 0⟩, ⟨"alice".toList, 1000, 1000⟩, ⟨"bob".toList, 1001, 1001⟩,
     ⟨"carol".toList, 1002, 1002⟩]
    [("root".toList, 0, []), ("wheel".toList, 10, ["alice".toList]),
     ("voix-admin".toList, 20, ["carol".toList]),
     ("alice".toList, 1000, []), ("bob".toList, 1001, []), ("carol".toList, 1002, [])]
    files

/-- A sample machine with an account named `unknown` (user id 1500, in `wheel`),
run by the process user id 4242, which has no account; `/etc/voix.conf` holds
the rule `unknown: *`. -/
def sampleUnknownOS : OS :=
  OS.ofTables 4242
    [⟨"root".toList, 0, 0⟩, ⟨"unknown".toList, 1500, 1500⟩]
    [("root".toList, 0, []), ("wheel".toList, 10, ["unknown".toList]),
     ("unknown".toList, 1500, [])]
    [("/etc/voix.conf".toList, "unknown: *\n".toList)]

/-- The text `x` is listed on a `wanted = ...` line: the line is not a comment,
the trimmed text before its first `=` is `wanted`, and `x` is one of the
non-empty trimmed comma-separated tokens of the text after that `=`. -/
def ListedOnLine (wanted line x : Str) : Prop :=
  ∃ kt vt : Str, line = kt ++ '=' :: vt ∧ '=' ∉ kt ∧ line.head? ≠ some '#' ∧
    trim kt = wanted ∧ x ∈ splitList vt

/-- The line is a `wanted = ...` line with text after its `=`: it is not a
comment, the trimmed text before its first `=` is `wanted`, and at least one
character follows that `=`. These are the lines of a key that both parsers
read; a line with nothing after its `=` is skipped by both. -/
def SettingLine (wanted line : Str) : Prop :=
  ∃ kt vt : Str, line = kt ++ '=' :: vt ∧ '=' ∉ kt ∧ vt ≠ [] ∧ line.head? ≠ some '#' ∧
    trim kt = wanted

/-! ## The gate chain of `Voix::execute` -/

/-- C1: `Voix::execute` returns 1 and makes no call to `Utils::executeCommand`
when `authenticate()` is false, or `Security::validateUser` of the current user
is false, or `Voix::validateCommand` of the command is false. The gates are
taken in that order and the first one that fails ends the call: the calls made
are the request log entry followed by the refusal entry of that gate alone.
When the three gates pass, the result is the value of
`Utils::executeCommand(command, args, user)`, called once after the request
log entry. -/
theorem execute_gate_chain (os : OS) (v : Voix) (command : Str) (args : List Str)
    (user : Option Str) :
    ((v.authenticate os = false ∨
        Security.validateUser os (Security.getCurrentUser os) = false ∨
        v.validateCommand os command = false) →
      (v.execute os command args user).1 = 1 ∧
      ∀ c a u, Call.executeCommand c a u ∉ (v.execute os command args user).2) ∧
    (v.authenticate os = false →
      (v.execute os command args user).2 =
        [Call.logEvent ("Command execution requested: ".toList ++ command)
           (Security.getCurrentUser os),
         Call.logEvent ("Authentication failed for user: ".toList ++ Security.getCurrentUser os)
           (Security.getCurrentUser os)]) ∧
    (v.authenticate os = true →
      Security.validateUser os (Security.getCurrentUser os) = false →
      (v.execute os command args user).2 =
        [Call.logEvent ("Command execution requested: ".toList ++ command)
           (Security.getCurrentUser os),
         Call.logEvent ("Unauthorized user attempt: ".toList ++ Security.getCurrentUser os)
           (Security.getCurrentUser os)]) ∧
    (v.authenticate os = true →
      Security.validateUser os (Security.getCurrentUser os) = true →
      v.validateCommand os command = false →
      (v.execute os command args user).2 =
        [Call.logEvent ("Command execution requested: ".toList ++ command)
           (Security.getCurrentUser os),
         Call.logEvent ("Invalid command attempted: ".toList ++ command)
           (Security.getCurrentUser os)]) ∧
    (v.authenticate os = true →
      Security.validateUser os (Security.getCurrentUser os) = true →
      v.validateCommand os command = true →
      v.execute os command args user =
        ((Utils.executeCommand os command args user).1,
         [Call.logEvent ("Command execution requested: ".toList ++ command)
            (Security.getCurrentUser os),
          Call.executeCommand command args user])) := by
  cases ha : v.authenticate os <;>
    cases hu : Security.validateUser os (Security.getCurrentUser os) <;>
    cases hc : v.validateCommand os command <;>
    simp [Voix.execute, ha, hu, hc]

/-- C1 at concrete inputs: on the sample machine with the rule `alice: *`,
`alice` (in `wheel`) running `/bin/true` passes the three gates and gets the
child's status 0; `bob`, who does not authenticate, gets 1 and no child. -/
theorem execute_gate_chain_witness :
    (sampleVoix 1000 (some "alice: *\n".toList)).execute
        (sampleOS 1000 (some "alice: *\n".toList)) "/bin/true".toList [] (some "root".toList)
      = (0, [Call.logEvent "Command execution requested: /bin/true".toList "alice".toList,
             Call.executeCommand "/bin/true".toList [] (some "root".toList)]) ∧
    ((sampleVoix 1001 (some "alice: *\n".toList)).execute
        (sampleOS 1001 (some "alice: *\n".toList)) "/bin/true".toList [] none).1 = 1 ∧
    (∀ c a u, Call.executeCommand c a u ∉
      ((sampleVoix 1001 (some "alice: *\n".toList)).execute
        (sampleOS 1001 (some "alice: *\n".toList)) "/bin/true".toList [] none).2) :=
  ⟨((execute_gate_chain (sampleOS 1000 (some "alice: *\n".toList))
        (sampleVoix 1000 (some "alice: *\n".toList)) "/bin/true".toList []
        (some "root".toList)).2.2.2.2 (by decide) (by decide) (by decide)).trans (by decide),
   ((execute_gate_chain (sampleOS 1001 (some "alice: *\n".toList))
        (sampleVoix 1001 (some "alice: *\n".toList)) "/bin/true".toList [] none).1
        (Or.inl (by decide))).1,
   ((execute_gate_chain (sampleOS 1001 (some "alice: *\n".toList))
        (sampleVoix 1001 (some "alice: *\n".toList)) "/bin/true".toList [] none).1
        (Or.inl (by decide))).2⟩


/-! ## The allow-list check `Voix::validateCommand` -/

/-- The three tests of `Voix::validateCommand` on a command list, in terms of
list equality and membership. -/
theorem allowList_tests (l : List Str) (command star : Str) :
    (if l.isEmpty then false
     else if l.length == 1 && l.head? == some star then true
     else l.any (fun allowed_cmd => command == allowed_cmd)) =
    (if l = [] then false else if l = [star] then true else decide (command ∈ l)) := by
  have hany : ∀ m : List Str,
      m.any (fun allowed_cmd => command == allowed_cmd) = decide (command ∈ m) := by
    intro m
    induction m with
    | nil => simp
    | cons x m ih =>
      rw [List.any_cons, ih, Bool.eq_iff_iff]
      simp
  rcases l with _ | ⟨a, _ | ⟨b, l⟩⟩
  · simp
  · by_cases ha : a = star
    · subst ha
      simp
    · have hs : ¬ star = a := fun h => ha h.symm
      rw [Bool.eq_iff_iff]
      simp [ha, hs]
  · rw [hany]
    simp

/-- The value of `Voix::validateCommand` in terms of the current user's command list. -/
theorem validateCommand_eq (os : OS) (v : Voix) (command : Str) :
    v.validateCommand os command =
      (if v.config_.getAllowedCommands (Security.getCurrentUser os) = [] then false
       else if v.config_.getAllowedCommands (Security.getCurrentUser os) = ["*".toList] then true
       else decide (command ∈ v.config_.getAllowedCommands (Security.getCurrentUser os))) := by
  rw [← allowList_tests]
  rfl

/-- A store that failed to load, or was never loaded, has no rule for anyone. -/
theorem construct_unopened (os : OS) (config_path : Str)
    (h : os.readFile (c_str config_path) = none) (name : Str) :
    (Voix.construct os config_path).config_.user_commands_ name = none := by
  simp [Voix.construct, Config.load, h, Config.empty]

/-- C2: for every configuration text from which the current user's rule is
loaded as exactly the one-element list `["*"]`, `Voix::validateCommand` returns
true for every command string, the empty string and the names on the
dangerous-command list included. -/
theorem validateCommand_wildcard (os : OS) (config_path text : Str) (command : Str)
    (hfile : os.readFile (c_str config_path) = some text)
    (hrule : (Config.empty.loadText text).getAllowedCommands (Security.getCurrentUser os)
      = ["*".toList]) :
    (Voix.construct os config_path).validateCommand os command = true := by
  have h : (Voix.construct os config_path).config_ = Config.empty.loadText text := by
    simp [Voix.construct, Config.load, hfile]
  rw [validateCommand_eq, h, hrule]
  simp

/-- C2 at concrete inputs: with the rule line `bob: *`, `bob` may run the empty
command, `sh` and `rm`. -/
theorem validateCommand_wildcard_witness :
    (sampleVoix 1001 (some "# rules\nbob: *\n".toList)).validateCommand
        (sampleOS 1001 (some "# rules\nbob: *\n".toList)) [] = true ∧
    (sampleVoix 1001 (some "# rules\nbob: *\n".toList)).validateCommand
        (sampleOS 1001 (some "# rules\nbob: *\n".toList)) "sh".toList = true ∧
    (sampleVoix 1001 (some "# rules\nbob: *\n".toList)).validateCommand
        (sampleOS 1001 (some "# rules\nbob: *\n".toList)) "rm".toList = true :=
  ⟨validateCommand_wildcard (sampleOS 1001 (some "# rules\nbob: *\n".toList))
      "/etc/voix.conf".toList "# rules\nbob: *\n".toList [] (by decide) (by decide),
   validateCommand_wildcard (sampleOS 1001 (some "# rules\nbob: *\n".toList))
      "/etc/voix.conf".toList "# rules\nbob: *\n".toList "sh".toList (by decide) (by decide),
   validateCommand_wildcard (sampleOS 1001 (some "# rules\nbob: *\n".toList))
      "/etc/voix.conf".toList "# rules\nbob: *\n".toList "rm".toList (by decide) (by decide)⟩

/-- C3: `PAMAuth::hasSudoPrivilege` is false for every name; so when the
current user has no entry in the rule mapping, or an entry with no command,
`Voix::validateCommand` (which then returns the value of `hasSudoPrivilege`) is
false for every command; and that is the case of every user when the
configuration file could not be opened. -/
theorem validateCommand_no_rule :
    (∀ name : Str, PAMAuth.hasSudoPrivilege name = false) ∧
    (∀ (os : OS) (v : Voix) (command : Str),
      (v.config_.user_commands_ (Security.getCurrentUser os) = none ∨
        v.config_.user_commands_ (Security.getCurrentUser os) = some []) →
      v.validateCommand os command = PAMAuth.hasSudoPrivilege (Security.getCurrentUser os) ∧
      v.validateCommand os command = false) ∧
    (∀ (os : OS) (config_path : Str) (command : Str),
      os.readFile (c_str config_path) = none →
      (Voix.construct os config_path).validateCommand os command = false) := by
  refine ⟨fun _ => rfl, ?_, ?_⟩
  · intro os v command h
    have hl : v.config_.getAllowedCommands (Security.getCurrentUser os) = [] := by
      rcases h with h | h <;> simp [Config.getAllowedCommands, h]
    rw [validateCommand_eq, hl]
    simp [PAMAuth.hasSudoPrivilege]
  · intro os config_path command h
    rw [validateCommand_eq]
    simp [Config.getAllowedCommands, construct_unopened os config_path h]

/-- C3 at concrete inputs: `bob` is refused `ls` when only `alice` has a rule,
when his rule line `bob: ,` holds no command, and when the file cannot be opened. -/
theorem validateCommand_no_rule_witness :
    (sampleVoix 1001 (some "alice: ls\n".toList)).validateCommand
        (sampleOS 1001 (some "alice: ls\n".toList)) "ls".toList = false ∧
    (sampleVoix 1001 (some "bob: ,\n".toList)).validateCommand
        (sampleOS 1001 (some "bob: ,\n".toList)) "ls".toList = false ∧
    (sampleVoix 1001 none).validateCommand (sampleOS 1001 none) "ls".toList = false :=
  ⟨(validateCommand_no_rule.2.1 (sampleOS 1001 (some "alice: ls\n".toList))
      (sampleVoix 1001 (some "alice: ls\n".toList)) "ls".toList (Or.inl (by decide))).2,
   (validateCommand_no_rule.2.1 (sampleOS 1001 (some "bob: ,\n".toList))
      (sampleVoix 1001 (some "bob: ,\n".toList)) "ls".toList (Or.inr (by decide))).2,
   validateCommand_no_rule.2.2 (sampleOS 1001 none) "/etc/voix.conf".toList "ls".toList
      (by decide)⟩

/-- C4: when the current user's command list is not empty and is not exactly
`["*"]`, `Voix::validateCommand` returns true if and only if the command is
equal, character for character, to one entry of the list. -/
theorem validateCommand_exact_match (os : OS) (v : Voix) (command : Str)
    (hne : v.config_.getAllowedCommands (Security.getCurrentUser os) ≠ [])
    (hw : v.config_.getAllowedCommands (Security.getCurrentUser os) ≠ ["*".toList]) :
    v.validateCommand os command = true ↔
      command ∈ v.config_.getAllowedCommands (Security.getCurrentUser os) := by
  rw [validateCommand_eq, if_neg hne, if_neg hw]
  simp

/-- C4 at concrete inputs: the list `["*", "ls"]` gives no wildcard (`cat` is
refused, `ls` and the literal `*` are accepted), and the list `["ls"]` refuses
`/bin/ls`. -/
theorem validateCommand_exact_match_witness :
    (sampleVoix 1001 (some "bob: *, ls\n".toList)).config_.getAllowedCommands "bob".toList
      = ["*".toList, "ls".toList] ∧
    ¬ (sampleVoix 1001 (some "bob: *, ls\n".toList)).validateCommand
        (sampleOS 1001 (some "bob: *, ls\n".toList)) "cat".toList = true ∧
    (sampleVoix 1001 (some "bob: *, ls\n".toList)).validateCommand
        (sampleOS 1001 (some "bob: *, ls\n".toList)) "ls".toList = true ∧
    ¬ (sampleVoix 1001 (some "bob: ls\n".toList)).validateCommand
        (sampleOS 1001 (some "bob: ls\n".toList)) "/bin/ls".toList = true :=
  ⟨by decide,
   fun h => absurd ((validateCommand_exact_match (sampleOS 1001 (some "bob: *, ls\n".toList))
      (sampleVoix 1001 (some "bob: *, ls\n".toList)) "cat".toList
      (by decide) (by decide)).1 h) (by decide),
   (validateCommand_exact_match (sampleOS 1001 (some "bob: *, ls\n".toList))
      (sampleVoix 1001 (some "bob: *, ls\n".toList)) "ls".toList
      (by decide) (by decide)).2 (by decide),
   fun h => absurd ((validateCommand_exact_match (sampleOS 1001 (some "bob: ls\n".toList))
      (sampleVoix 1001 (some "bob: ls\n".toList)) "/bin/ls".toList
      (by decide) (by decide)).1 h) (by decide)⟩


/-! ## Identity checks: `PAMAuth::authenticate` and `Voix::isAllowed` -/

/-- The function `c_str` leaves the literal `root` as it is. -/
theorem c_str_root : c_str "root".toList = "root".toList := by decide

/-- The test `PAMAuth::isInWheelGroup` is membership of `wheel` in the user's groups. -/
theorem isInWheelGroup_iff (os : OS) (name : Str) :
    PAMAuth.isInWheelGroup os name = true ↔ "wheel".toList ∈ PAMAuth.getUserGroups os name := by
  unfold PAMAuth.isInWheelGroup
  rw [List.any_eq_true]
  constructor
  · rintro ⟨g, hg, he⟩
    rw [beq_iff_eq] at he
    exact he ▸ hg
  · intro h
    exact ⟨_, h, beq_self_eq_true _⟩

/-- A nested membership loop over two lists finds a common element. -/
theorem any_any_iff (groups fixed : List Str) :
    groups.any (fun group => fixed.any (fun f => group == f)) = true ↔
      ∃ g ∈ groups, g ∈ fixed := by
  rw [List.any_eq_true]
  constructor
  · rintro ⟨g, hg, hf⟩
    rw [List.any_eq_true] at hf
    obtain ⟨f, hf, he⟩ := hf
    rw [beq_iff_eq] at he
    exact ⟨g, hg, he ▸ hf⟩
  · rintro ⟨g, hg, hf⟩
    exact ⟨g, hg, List.any_eq_true.2 ⟨g, hf, beq_self_eq_true _⟩⟩

/-- The test `PAMAuth::isInAdminGroup` is a common element with the five fixed names. -/
theorem isInAdminGroup_iff (os : OS) (name : Str) :
    PAMAuth.isInAdminGroup os name = true ↔
      ∃ g ∈ PAMAuth.getUserGroups os name,
        g ∈ ["wheel".toList, "sudo".toList, "admin".toList, "adm".toList, "voix".toList] :=
  any_any_iff _ _

/-- The test `PAMAuth::isInVoixAdminGroup` is a common element with the two fixed names. -/
theorem isInVoixAdminGroup_iff (os : OS) (name : Str) :
    PAMAuth.isInVoixAdminGroup os name = true ↔
      ∃ g ∈ PAMAuth.getUserGroups os name, g ∈ ["voix".toList, "voix-admin".toList] :=
  any_any_iff _ _

/-- The test `PAMAuth::isInVoixAdminGroup` is membership of `voix` or of `voix-admin`. -/
theorem isInVoixAdminGroup_iff_mem (os : OS) (name : Str) :
    PAMAuth.isInVoixAdminGroup os name = true ↔
      ("voix".toList ∈ PAMAuth.getUserGroups os name ∨
        "voix-admin".toList ∈ PAMAuth.getUserGroups os name) := by
  rw [isInVoixAdminGroup_iff]
  constructor
  · rintro ⟨g, hg, hf⟩
    rw [List.mem_cons, List.mem_singleton] at hf
    rcases hf with hf | hf
    · exact Or.inl (hf ▸ hg)
    · exact Or.inr (hf ▸ hg)
  · rintro (h | h)
    · exact ⟨_, h, List.mem_cons_self _ _⟩
    · exact ⟨_, h, List.mem_cons_of_mem _ (List.mem_singleton.2 rfl)⟩

/-- C5: `PAMAuth::authenticate(name)` is: the name has an entry in the identity
database, and (the name is the literal `root`, or its groups include `wheel`, or
its groups include `voix` or `voix-admin`, or `isAllowedInVoixConfig(name)`),
the operands being taken from left to right, each one only when those before
it have not decided; `Voix::authenticate()` is that function at the current user. -/
theorem authenticate_decision (os : OS) (v : Voix) (name : Str) :
    PAMAuth.authenticate os name =
      ((os.getpwnam (c_str name)).isSome &&
        (decide (name = "root".toList) ||
          (decide ("wheel".toList ∈ PAMAuth.getUserGroups os name) ||
            (decide ("voix".toList ∈ PAMAuth.getUserGroups os name ∨
                "voix-admin".toList ∈ PAMAuth.getUserGroups os name) ||
              PAMAuth.isAllowedInVoixConfig os name)))) ∧
    v.authenticate os = PAMAuth.authenticate os (Security.getCurrentUser os) := by
  refine ⟨?_, rfl⟩
  have hw := isInWheelGroup_iff os name
  have hv := isInVoixAdminGroup_iff_mem os name
  unfold PAMAuth.authenticate PAMAuth.userExists
  rw [Bool.eq_iff_iff]
  cases he : (os.getpwnam (c_str name)).isSome
  · simp
  · by_cases hr : name = "root".toList
    · simp [hr]
    · cases h1 : PAMAuth.isInWheelGroup os name
      · cases h2 : PAMAuth.isInVoixAdminGroup os name
        · have hw' : ¬ "wheel".toList ∈ PAMAuth.getUserGroups os name := by
            rw [← hw, h1]; simp
          have hv' : ¬ ("voix".toList ∈ PAMAuth.getUserGroups os name ∨
              "voix-admin".toList ∈ PAMAuth.getUserGroups os name) := by
            rw [← hv, h2]; simp
          rw [if_neg (by simp), if_neg hr, if_neg (by simp), if_neg (by simp)]
          rw [decide_eq_false hr, decide_eq_false hw', decide_eq_false hv']
          simp
        · have hv' := hv.1 h2
          rw [if_neg (by simp), if_neg hr, if_neg (by simp), if_pos rfl]
          rw [decide_eq_true hv']
          simp
      · have hw' := hw.1 h1
        rw [if_neg (by simp), if_neg hr, if_pos rfl, decide_eq_true hw']
        simp

/-- C5 at concrete inputs, one per branch on the sample machine: `root`; `alice`
through `wheel`; `carol` through `voix-admin`; `bob` through `allowed_users`;
`bob` refused when nothing lists him; `mallory`, listed but without an account,
refused. -/
theorem authenticate_decision_witness :
    PAMAuth.authenticate (sampleOS 0 none) "root".toList = true ∧
    PAMAuth.authenticate (sampleOS 1000 none) "alice".toList = true ∧
    PAMAuth.authenticate (sampleOS 1002 none) "carol".toList = true ∧
    PAMAuth.authenticate (sampleOS 1001 (some "allowed_users = bob\n".toList))
      "bob".toList = true ∧
    PAMAuth.authenticate (sampleOS 1001 (some "allowed_users = alice\n".toList))
      "bob".toList = false ∧
    PAMAuth.authenticate (sampleOS 1001 (some "allowed_users = mallory\n".toList))
      "mallory".toList = false :=
  ⟨(authenticate_decision (sampleOS 0 none) (sampleVoix 0 none) "root".toList).1.trans
      (by decide),
   (authenticate_decision (sampleOS 1000 none) (sampleVoix 1000 none) "alice".toList).1.trans
      (by decide),
   (authenticate_decision (sampleOS 1002 none) (sampleVoix 1002 none) "carol".toList).1.trans
      (by decide),
   (authenticate_decision (sampleOS 1001 (some "allowed_users = bob\n".toList))
      (sampleVoix 1001 (some "allowed_users = bob\n".toList)) "bob".toList).1.trans (by decide),
   (authenticate_decision (sampleOS 1001 (some "allowed_users = alice\n".toList))
      (sampleVoix 1001 (some "allowed_users = alice\n".toList)) "bob".toList).1.trans
      (by decide),
   (authenticate_decision (sampleOS 1001 (some "allowed_users = mallory\n".toList))
      (sampleVoix 1001 (some "allowed_users = mallory\n".toList)) "mallory".toList).1.trans
      (by decide)⟩

/-- C6: `PAMAuth::authenticate("root")` is true on every machine whose identity
database has an entry named `root`: whatever the configuration file holds,
whether or not it can be read, and whatever groups `root` is in. -/
theorem authenticate_root (os : OS) (h : (os.getpwnam "root".toList).isSome = true) :
    PAMAuth.authenticate os "root".toList = true := by
  unfold PAMAuth.authenticate PAMAuth.userExists
  rw [c_str_root, h]
  rfl

/-- C6 at concrete inputs: `root` authenticates on the sample machine when the
configuration file cannot be opened, and when it names only other users. -/
theorem authenticate_root_witness :
    PAMAuth.authenticate (sampleOS 0 none) "root".toList = true ∧
    PAMAuth.authenticate (sampleOS 0 (some "allowed_users = bob\nalice: ls\n".toList))
      "root".toList = true :=
  ⟨authenticate_root (sampleOS 0 none) (by decide),
   authenticate_root (sampleOS 0 (some "allowed_users = bob\nalice: ls\n".toList)) (by decide)⟩

/-- C7: `Voix::isAllowed()` is true if and only if the current user has an entry
in the identity database and is allowed by `isAllowedInVoixConfig`, or has a
group among `wheel`, `sudo`, `admin`, `adm`, `voix`, or has a group among
`voix`, `voix-admin`. It takes no command, and it is the same for every
orchestrator object on the same machine. -/
theorem isAllowed_iff (os : OS) (v : Voix) :
    (v.isAllowed os = true ↔
      (os.getpwnam (c_str (Security.getCurrentUser os))).isSome = true ∧
      (PAMAuth.isAllowedInVoixConfig os (Security.getCurrentUser os) = true ∨
        (∃ g ∈ PAMAuth.getUserGroups os (Security.getCurrentUser os),
          g ∈ ["wheel".toList, "sudo".toList, "admin".toList, "adm".toList, "voix".toList]) ∨
        (∃ g ∈ PAMAuth.getUserGroups os (Security.getCurrentUser os),
          g ∈ ["voix".toList, "voix-admin".toList]))) ∧
    (∀ w : Voix, w.isAllowed os = v.isAllowed os) := by
  refine ⟨?_, fun _ => rfl⟩
  rw [← isInAdminGroup_iff, ← isInVoixAdminGroup_iff]
  cases h0 : (os.getpwnam (c_str (Security.getCurrentUser os))).isSome <;>
    cases h1 : PAMAuth.isAllowedInVoixConfig os (Security.getCurrentUser os) <;>
    cases h2 : PAMAuth.isInAdminGroup os (Security.getCurrentUser os) <;>
    cases h3 : PAMAuth.isInVoixAdminGroup os (Security.getCurrentUser os) <;>
    simp [Voix.isAllowed, PAMAuth.userExists, h0, h1, h2, h3]

/-- C7 at concrete inputs on the sample machine: `alice` (in `wheel`) and
`carol` (in `voix-admin`) are allowed without any configuration, `bob` is
allowed once `allowed_users` lists him and is not allowed otherwise. -/
theorem isAllowed_iff_witness :
    (sampleVoix 1000 none).isAllowed (sampleOS 1000 none) = true ∧
    (sampleVoix 1002 none).isAllowed (sampleOS 1002 none) = true ∧
    (sampleVoix 1001 (some "allowed_users = bob\n".toList)).isAllowed
      (sampleOS 1001 (some "allowed_users = bob\n".toList)) = true ∧
    ¬ (sampleVoix 1001 none).isAllowed (sampleOS 1001 none) = true :=
  ⟨(isAllowed_iff (sampleOS 1000 none) (sampleVoix 1000 none)).1.2
      ⟨by decide, Or.inr (Or.inl ⟨"wheel".toList, by decide, by decide⟩)⟩,
   (isAllowed_iff (sampleOS 1002 none) (sampleVoix 1002 none)).1.2
      ⟨by decide, Or.inr (Or.inr ⟨"voix-admin".toList, by decide, by decide⟩)⟩,
   (isAllowed_iff (sampleOS 1001 (some "allowed_users = bob\n".toList))
      (sampleVoix 1001 (some "allowed_users = bob\n".toList))).1.2
      ⟨by decide, Or.inl (by decide)⟩,
   fun h => absurd ((isAllowed_iff (sampleOS 1001 none) (sampleVoix 1001 none)).1.1 h)
      (by decide)⟩

/-- C8: a name without an entry in the identity database is refused by
`PAMAuth::authenticate`, by `Security::validateUser` and, when it is the current
user, by `Voix::isAllowed`, whatever the configuration holds; each of the three
is a total function returning `false`. -/
theorem unknown_identity_denied (os : OS) (v : Voix) (name : Str)
    (h : os.getpwnam (c_str name) = none) :
    PAMAuth.authenticate os name = false ∧
    Security.validateUser os name = false ∧
    (Security.getCurrentUser os = name → v.isAllowed os = false) := by
  refine ⟨?_, ?_, ?_⟩
  · simp [PAMAuth.authenticate, PAMAuth.userExists, h]
  · unfold Security.validateUser
    rw [h]
    simp
  · intro hc
    simp [Voix.isAllowed, PAMAuth.userExists, hc, h]

/-- C8 at concrete inputs: on the sample machine the process runs under user id
4242, which has no account, so the current user is `unknown`; the configuration
lists `unknown` in `allowed_users` and gives it the rule `*`, and the three
checks still refuse it. -/
theorem unknown_identity_denied_witness :
    Security.getCurrentUser
      (sampleOS 4242 (some "allowed_users = unknown\nunknown: *\n".toList)) = "unknown".toList ∧
    PAMAuth.authenticate
      (sampleOS 4242 (some "allowed_users = unknown\nunknown: *\n".toList))
      "unknown".toList = false ∧
    Security.validateUser
      (sampleOS 4242 (some "allowed_users = unknown\nunknown: *\n".toList))
      "unknown".toList = false ∧
    (sampleVoix 4242 (some "allowed_users = unknown\nunknown: *\n".toList)).isAllowed
      (sampleOS 4242 (some "allowed_users = unknown\nunknown: *\n".toList)) = false :=
  ⟨by decide,
   (unknown_identity_denied
      (sampleOS 4242 (some "allowed_users = unknown\nunknown: *\n".toList))
      (sampleVoix 4242 (some "allowed_users = unknown\nunknown: *\n".toList))
      "unknown".toList (by decide)).1,
   (unknown_identity_denied
      (sampleOS 4242 (some "allowed_users = unknown\nunknown: *\n".toList))
      (sampleVoix 4242 (some "allowed_users = unknown\nunknown: *\n".toList))
      "unknown".toList (by decide)).2.1,
   (unknown_identity_denied
      (sampleOS 4242 (some "allowed_users = unknown\nunknown: *\n".toList))
      (sampleVoix 4242 (some "allowed_users = unknown\nunknown: *\n".toList))
      "unknown".toList (by decide)).2.2 (by decide)⟩


/-! ## The syntactic checks of `Security::validateCommand` -/

/-- The test `Security::isDangerousCommand` is membership in the fixed table. -/
theorem isDangerousCommand_iff (command : Str) :
    Security.isDangerousCommand command = true ↔ command ∈ Security.dangerous_commands := by
  unfold Security.isDangerousCommand
  rw [List.any_eq_true]
  constructor
  · rintro ⟨d, hd, he⟩
    rw [beq_iff_eq] at he
    exact he ▸ hd
  · intro h
    exact ⟨command, h, beq_self_eq_true _⟩

/-- The test `Security::containsShellMetacharacters` finds a character of `dangerous_chars`. -/
theorem containsShellMetacharacters_iff (s : Str) :
    Security.containsShellMetacharacters s = true ↔ ∃ c ∈ s, c ∈ Security.dangerous_chars := by
  unfold Security.containsShellMetacharacters
  rw [List.any_eq_true]
  constructor
  · rintro ⟨c, hc, hd⟩
    exact ⟨c, hc, by simpa using hd⟩
  · rintro ⟨c, hc, hd⟩
    exact ⟨c, hc, by simpa using hd⟩

/-- The check `Security::validateCommand` accepts exactly when none of its three tests fires. -/
theorem security_validateCommand_iff (command : Str) (args : List Str) :
    Security.validateCommand command args = true ↔
      command ∉ Security.dangerous_commands ∧
      Security.containsShellMetacharacters command = false ∧
      ∀ arg ∈ args, Security.containsShellMetacharacters arg = false := by
  rw [← isDangerousCommand_iff]
  unfold Security.validateCommand
  cases Security.isDangerousCommand command
  · cases Security.containsShellMetacharacters command
    · cases h : args.any (fun arg => Security.containsShellMetacharacters arg)
      · have h2 : ∀ arg ∈ args, Security.containsShellMetacharacters arg = false := by
          intro arg harg
          cases h3 : Security.containsShellMetacharacters arg
          · rfl
          · rw [List.any_eq_true.2 ⟨arg, harg, h3⟩] at h
            exact absurd h (by simp)
        simpa using h2
      · obtain ⟨arg, harg, h3⟩ := List.any_eq_true.1 h
        have h2 : ¬ ∀ arg ∈ args, Security.containsShellMetacharacters arg = false :=
          fun hall => absurd (hall arg harg) (by simp [h3])
        simp [h2]
    · simp
  · simp

/-- C9: for every command equal to one of the 25 names of the table, and for
every argument list, `Security::validateCommand` returns false. -/
theorem validateCommand_denylist (command : Str) (args : List Str)
    (h : command ∈
      ["su".toList, "sudo".toList, "doas".toList, "pkexec".toList, "bash".toList,
       "sh".toList, "zsh".toList, "fish".toList, "dd".toList, "mkfs".toList,
       "fdisk".toList, "parted".toList, "rm".toList, "rmdir".toList, "chmod".toList,
       "chown".toList, "kill".toList, "killall".toList, "pkill".toList,
       "systemctl".toList, "service".toList, "chroot".toList, "unshare".toList,
       "nsenter".toList, "capsh".toList]) :
    Security.validateCommand command args = false := by
  have hd : Security.isDangerousCommand command = true := (isDangerousCommand_iff command).2 h
  unfold Security.validateCommand
  rw [hd]
  rfl

/-- C9 at concrete inputs: `rm -rf /`, a bare `sudo` and `systemctl status` are refused. -/
theorem validateCommand_denylist_witness :
    Security.validateCommand "rm".toList ["-rf".toList, "/".toList] = false ∧
    Security.validateCommand "sudo".toList [] = false ∧
    Security.validateCommand "systemctl".toList ["status".toList] = false :=
  ⟨validateCommand_denylist "rm".toList ["-rf".toList, "/".toList] (by decide),
   validateCommand_denylist "sudo".toList [] (by decide),
   validateCommand_denylist "systemctl".toList ["status".toList] (by decide)⟩

/-- C10: the set `dangerous_chars` is the 20 characters
`| & ; $` backquote `( ) { } [ ] < > ? ! ~ *` backslash, double quote, single
quote; `containsShellMetacharacters(s)` is true if and only if `s` contains one
of them; `Security::validateCommand(command, args)` is true if and only if the
command is not in the table of dangerous commands and neither the command nor
any argument contains one of them; so a command or an argument with such a
character at any position is refused whatever the other arguments are. -/
theorem shell_metacharacters (s command : Str) (args : List Str) :
    Security.dangerous_chars =
      ['|', '&', ';', '$', Char.ofNat 96, '(', ')', '{', '}', '[', ']', '<', '>', '?', '!',
       '~', '*', Char.ofNat 92, Char.ofNat 34, Char.ofNat 39] ∧
    (Security.containsShellMetacharacters s = true ↔ ∃ c ∈ s, c ∈ Security.dangerous_chars) ∧
    (Security.validateCommand command args = true ↔
      command ∉ Security.dangerous_commands ∧
      (∀ c ∈ command, c ∉ Security.dangerous_chars) ∧
      ∀ arg ∈ args, ∀ c ∈ arg, c ∉ Security.dangerous_chars) ∧
    (∀ c ∈ Security.dangerous_chars, ∀ (pre post : Str) (before after : List Str),
      Security.containsShellMetacharacters (pre ++ c :: post) = true ∧
      Security.validateCommand (pre ++ c :: post) args = false ∧
      Security.validateCommand command (before ++ (pre ++ c :: post) :: after) = false) := by
  have hfalse : ∀ t : Str, Security.containsShellMetacharacters t = false ↔
      ∀ c ∈ t, c ∉ Security.dangerous_chars := by
    intro t
    rw [← Bool.not_eq_true, containsShellMetacharacters_iff]
    constructor
    · intro h c hc hd
      exact h ⟨c, hc, hd⟩
    · rintro h ⟨c, hc, hd⟩
      exact h c hc hd
  have hmeta : ∀ c ∈ Security.dangerous_chars, ∀ pre post : Str,
      Security.containsShellMetacharacters (pre ++ c :: post) = true := by
    intro c hc pre post
    exact (containsShellMetacharacters_iff _).2 ⟨c, by simp, hc⟩
  refine ⟨by decide, containsShellMetacharacters_iff s, ?_, ?_⟩
  · rw [security_validateCommand_iff, hfalse]
    constructor
    · rintro ⟨h1, h2, h3⟩
      exact ⟨h1, h2, fun arg harg => (hfalse arg).1 (h3 arg harg)⟩
    · rintro ⟨h1, h2, h3⟩
      exact ⟨h1, h2, fun arg harg => (hfalse arg).2 (h3 arg harg)⟩
  · intro c hc pre post before after
    refine ⟨hmeta c hc pre post, ?_, ?_⟩
    · rw [← Bool.not_eq_true, security_validateCommand_iff]
      rintro ⟨_, h2, _⟩
      rw [hmeta c hc pre post] at h2
      exact absurd h2 (by simp)
    · rw [← Bool.not_eq_true, security_validateCommand_iff]
      rintro ⟨_, _, h3⟩
      have h4 := h3 (pre ++ c :: post) (by simp)
      rw [hmeta c hc pre post] at h4
      exact absurd h4 (by simp)

/-- C10 at concrete inputs: `echo` with the arguments `hello` and `a;b` is
refused because of the `;` inside the second argument, the command `ls|cat` is
refused, and `echo hello` is accepted. -/
theorem shell_metacharacters_witness :
    Security.validateCommand "echo".toList ["hello".toList, "a;b".toList] = false ∧
    Security.validateCommand "ls|cat".toList [] = false ∧
    Security.validateCommand "echo".toList ["hello".toList] = true :=
  ⟨((shell_metacharacters [] "echo".toList []).2.2.2 ';' (by decide)
      "a".toList "b".toList ["hello".toList] []).2.2,
   ((shell_metacharacters [] [] []).2.2.2 '|' (by decide)
      "ls".toList "cat".toList [] []).2.1,
   (shell_metacharacters [] "echo".toList ["hello".toList]).2.2.1.2 (by decide)⟩


/-! ## The gate chain does not run `Security::validateCommand` -/

/-- C11: the denylist and metacharacter checks of `Security::validateCommand`
are not part of the gate chain of `Voix::execute`. Whether `execute` calls
`Utils::executeCommand` is decided by `authenticate()`, `validateUser` of the
current user and `Voix::validateCommand(command)` alone, none of which looks at
the arguments. On the sample machine, with the rule `alice: *`, `alice` gets the
child spawned for `sh` and for `/bin/true` with the argument `a;b`, both refused
by `Security::validateCommand`; and with the rule `alice: ls` the command `cat`,
which `Security::validateCommand` accepts, is refused by the chain. -/
theorem execute_skips_security_validateCommand :
    (∀ (os : OS) (v : Voix) (command : Str) (args : List Str) (user : Option Str),
      ((∃ c a u, Call.executeCommand c a u ∈ (v.execute os command args user).2) ↔
        (v.authenticate os = true ∧
          Security.validateUser os (Security.getCurrentUser os) = true ∧
          v.validateCommand os command = true))) ∧
    (∀ (os : OS) (v : Voix) (command : Str) (args args' : List Str) (user : Option Str),
      ((v.execute os command args user).2 =
          [Call.logEvent ("Command execution requested: ".toList ++ command)
             (Security.getCurrentUser os),
           Call.executeCommand command args user] ↔
        (v.execute os command args' user).2 =
          [Call.logEvent ("Command execution requested: ".toList ++ command)
             (Security.getCurrentUser os),
           Call.executeCommand command args' user])) ∧
    (Security.validateCommand "sh".toList [] = false ∧
      (sampleVoix 1000 (some "alice: *\n".toList)).execute
          (sampleOS 1000 (some "alice: *\n".toList)) "sh".toList [] (some "root".toList)
        = (127, [Call.logEvent "Command execution requested: sh".toList "alice".toList,
                 Call.executeCommand "sh".toList [] (some "root".toList)])) ∧
    (Security.validateCommand "/bin/true".toList ["a;b".toList] = false ∧
      (sampleVoix 1000 (some "alice: *\n".toList)).execute
          (sampleOS 1000 (some "alice: *\n".toList)) "/bin/true".toList ["a;b".toList]
          (some "root".toList)
        = (0, [Call.logEvent "Command execution requested: /bin/true".toList "alice".toList,
               Call.executeCommand "/bin/true".toList ["a;b".toList] (some "root".toList)])) ∧
    (Security.validateCommand "cat".toList [] = true ∧
      (sampleVoix 1000 (some "alice: ls\n".toList)).execute
          (sampleOS 1000 (some "alice: ls\n".toList)) "cat".toList [] (some "root".toList)
        = (1, [Call.logEvent "Command execution requested: cat".toList "alice".toList,
               Call.logEvent "Invalid command attempted: cat".toList "alice".toList])) := by
  refine ⟨?_, ?_, ⟨by decide, by decide⟩, ⟨by decide, by decide⟩, ⟨by decide, by decide⟩⟩
  · intro os v command args user
    cases ha : v.authenticate os <;>
      cases hu : Security.validateUser os (Security.getCurrentUser os) <;>
      cases hc : v.validateCommand os command <;>
      simp [Voix.execute, ha, hu, hc]
  · intro os v command args args' user
    cases ha : v.authenticate os <;>
      cases hu : Security.validateUser os (Security.getCurrentUser os) <;>
      cases hc : v.validateCommand os command <;>
      simp [Voix.execute, ha, hu, hc]

/-! ## `Security::validateUser` and `Security::isSafePath` -/

/-- The classification `std::isalnum` in the "C" locale: ASCII letters and digits. -/
theorem isAlphanum_iff (c : Char) :
    c.isAlphanum = true ↔
      (('A' ≤ c ∧ c ≤ 'Z') ∨ ('a' ≤ c ∧ c ≤ 'z')) ∨ ('0' ≤ c ∧ c ≤ '9') := by
  simp only [Char.isAlphanum, Char.isAlpha, Char.isUpper, Char.isLower, Char.isDigit,
    Bool.or_eq_true, Bool.and_eq_true, decide_eq_true_eq, Char.le_def, ge_iff_le]
  rfl

/-- A string without a NUL is read whole by the C library. -/
theorem c_str_eq_self (s : Str) (h : ∀ c ∈ s, c ≠ '\x00') : c_str s = s := by
  unfold c_str
  rw [List.takeWhile_eq_self_iff]
  intro c hc
  simpa using h c hc

/-- C12: `Security::validateUser(name)` is true if and only if the name is not
empty, has at most 32 characters, consists only of ASCII letters, digits, `_`
and `-`, and has an entry in the identity database. -/
theorem validateUser_iff (os : OS) (name : Str) :
    Security.validateUser os name = true ↔
      name ≠ [] ∧ name.length ≤ 32 ∧
      (∀ c ∈ name, ('A' ≤ c ∧ c ≤ 'Z') ∨ ('a' ≤ c ∧ c ≤ 'z') ∨ ('0' ≤ c ∧ c ≤ '9') ∨
        c = '_' ∨ c = '-') ∧
      (os.getpwnam name).isSome = true := by
  have hchars : (name.any (fun c => !c.isAlphanum && c != '_' && c != '-')) = false ↔
      ∀ c ∈ name, ('A' ≤ c ∧ c ≤ 'Z') ∨ ('a' ≤ c ∧ c ≤ 'z') ∨ ('0' ≤ c ∧ c ≤ '9') ∨
        c = '_' ∨ c = '-' := by
    rw [← Bool.not_eq_true, List.any_eq_true]
    constructor
    · intro h c hc
      by_contra hn
      apply h
      refine ⟨c, hc, ?_⟩
      have ha : ¬ c.isAlphanum = true := by
        rw [isAlphanum_iff]
        tauto
      have hu : c ≠ '_' := by tauto
      have hd : c ≠ '-' := by tauto
      simp [ha, hu, hd]
    · rintro h ⟨c, hc, hbad⟩
      have hgood := h c hc
      have ha : c.isAlphanum = true ∨ c = '_' ∨ c = '-' := by
        rw [isAlphanum_iff]
        tauto
      rcases ha with ha | ha | ha <;> simp [ha] at hbad
  unfold Security.validateUser
  by_cases he : name = []
  · simp [he]
  by_cases hl : 32 < name.length
  · have : ¬ name.length ≤ 32 := by omega
    simp [hl, this]
  have hl' : name.length ≤ 32 := by omega
  have hemp : name.isEmpty = false := by
    cases name with
    | nil => exact absurd rfl he
    | cons _ _ => rfl
  cases hany : name.any (fun c => !c.isAlphanum && c != '_' && c != '-')
  · have hall := hchars.1 hany
    have hnul : ∀ c ∈ name, c ≠ '\x00' := by
      intro c hc h0
      have := hall c hc
      rw [h0] at this
      revert this
      decide
    rw [c_str_eq_self name hnul]
    simp [hemp, hl, hl', he]
    intro _ c hc
    exact hall c hc
  · have hnot : ¬ ∀ c ∈ name, ('A' ≤ c ∧ c ≤ 'Z') ∨ ('a' ≤ c ∧ c ≤ 'z') ∨
        ('0' ≤ c ∧ c ≤ '9') ∨ c = '_' ∨ c = '-' := by
      intro h
      rw [hchars.2 h] at hany
      exact absurd hany (by simp)
    simp [hemp, hl, hnot]

/-- C12 at concrete inputs, on a machine where all four accounts exist: the
name of 32 letters and `web_admin-2` are accepted; the name of 33 letters and
`john.doe` are refused. -/
theorem validateUser_iff_witness :
    Security.validateUser sampleNamesOS (List.replicate 32 'a') = true ∧
    Security.validateUser sampleNamesOS "web_admin-2".toList = true ∧
    ((sampleNamesOS.getpwnam (List.replicate 33 'a')).isSome = true ∧
      ¬ Security.validateUser sampleNamesOS (List.replicate 33 'a') = true) ∧
    ((sampleNamesOS.getpwnam "john.doe".toList).isSome = true ∧
      ¬ Security.validateUser sampleNamesOS "john.doe".toList = true) :=
  ⟨(validateUser_iff sampleNamesOS (List.replicate 32 'a')).2 (by decide),
   (validateUser_iff sampleNamesOS "web_admin-2".toList).2 (by decide),
   ⟨by decide, fun h =>
      absurd ((validateUser_iff sampleNamesOS (List.replicate 33 'a')).1 h).2.1 (by decide)⟩,
   ⟨by decide, fun h =>
      absurd (((validateUser_iff sampleNamesOS "john.doe".toList).1 h).2.2.1 '.' (by decide))
        (by decide)⟩⟩

/-- The test `hay.find(needle) != npos` is: `needle` is a contiguous part of `hay`. -/
theorem containsStr_iff (hay needle : Str) :
    containsStr hay needle = true ↔ needle <:+: hay := by
  unfold containsStr
  rw [List.any_eq_true, List.infix_iff_prefix_suffix]
  constructor
  · rintro ⟨t, ht, hp⟩
    exact ⟨t, List.isPrefixOf_iff_prefix.1 hp, (List.mem_tails t hay).1 ht⟩
  · rintro ⟨t, hp, ht⟩
    exact ⟨t, (List.mem_tails t hay).2 ht, List.isPrefixOf_iff_prefix.2 hp⟩

/-- C13: `Security::isSafePath(path)` is false if and only if the path has,
somewhere, one of the texts `..`, `/etc/shadow`, `/etc/sudoers`, `/root`; it is
true if and only if it has none of them; and a path with `../../etc/shadow`
anywhere in it is refused. -/
theorem isSafePath_iff (path : Str) :
    (Security.isSafePath path = false ↔
      ("..".toList <:+: path ∨ "/etc/shadow".toList <:+: path ∨
        "/etc/sudoers".toList <:+: path ∨ "/root".toList <:+: path)) ∧
    (Security.isSafePath path = true ↔
      (¬ "..".toList <:+: path ∧ ¬ "/etc/shadow".toList <:+: path ∧
        ¬ "/etc/sudoers".toList <:+: path ∧ ¬ "/root".toList <:+: path)) ∧
    (∀ before after : Str,
      Security.isSafePath (before ++ "../../etc/shadow".toList ++ after) = false) := by
  have key : ∀ p : Str, Security.isSafePath p = true ↔
      (¬ "..".toList <:+: p ∧ ¬ "/etc/shadow".toList <:+: p ∧
        ¬ "/etc/sudoers".toList <:+: p ∧ ¬ "/root".toList <:+: p) := by
    intro p
    rw [← containsStr_iff, ← containsStr_iff, ← containsStr_iff, ← containsStr_iff]
    unfold Security.isSafePath
    cases containsStr p "..".toList <;> cases containsStr p "/etc/shadow".toList <;>
      cases containsStr p "/etc/sudoers".toList <;> cases containsStr p "/root".toList <;>
      simp
  have key2 : ∀ p : Str, Security.isSafePath p = false ↔
      ("..".toList <:+: p ∨ "/etc/shadow".toList <:+: p ∨
        "/etc/sudoers".toList <:+: p ∨ "/root".toList <:+: p) := by
    intro p
    rw [← Bool.not_eq_true, key]
    tauto
  refine ⟨key2 path, key path, ?_⟩
  intro before after
  rw [key2]
  refine Or.inl ⟨before, "/../etc/shadow".toList ++ after, ?_⟩
  simp

/-- C13 at concrete inputs: `/home/bob/../../etc/shadow`, `/etc/sudoers.d/x` and
`/var/root-backup` are refused; `/home/bob/notes.txt` is accepted. -/
theorem isSafePath_iff_witness :
    Security.isSafePath "/home/bob/../../etc/shadow".toList = false ∧
    Security.isSafePath "/etc/sudoers.d/x".toList = false ∧
    Security.isSafePath "/var/root-backup".toList = false ∧
    Security.isSafePath "/home/bob/notes.txt".toList = true :=
  ⟨(isSafePath_iff []).2.2 "/home/bob/".toList [],
   (isSafePath_iff "/etc/sudoers.d/x".toList).1.2 (Or.inr (Or.inr (Or.inl (by decide)))),
   (isSafePath_iff "/var/root-backup".toList).1.2 (Or.inr (Or.inr (Or.inr (by decide)))),
   (isSafePath_iff "/home/bob/notes.txt".toList).2.1.2 (by decide)⟩


/-! ## `Utils::executeCommand` -/

/-- C14, what the code does: when `fork` succeeds and the target user resolves
to a passwd entry, the child calls `setuid` with the entry's user id first and
`setgid` with its group id second, then `execvp`, whatever the two calls
returned. On the sample machine, running `/bin/true` as `bob` (uid and gid 1001),
the child's calls are `setuid 1001`, `setgid 1001`, `execvp`: the user identity
is switched before the group identity, not after it. -/
theorem executeCommand_switch_order :
    (∀ (os : OS) (command : Str) (args : List Str) (name : Str) (pw : Passwd),
      os.forkOk = true → os.getpwnam (c_str name) = some pw →
      (Utils.executeCommand os command args (some name)).2.take 3 =
        [Sys.setuid pw.pw_uid, Sys.setgid pw.pw_gid,
         Sys.execvp (c_str command) (c_str command :: args.map c_str)]) ∧
    (Utils.executeCommand (sampleOS 0 none) "/bin/true".toList [] (some "bob".toList)).2 =
      [Sys.setuid 1001, Sys.setgid 1001,
       Sys.execvp "/bin/true".toList ["/bin/true".toList]] := by
  refine ⟨?_, by decide⟩
  intro os command args name pw hfork hpw
  unfold Utils.executeCommand
  simp only [hfork, hpw]
  cases os.execvp (some pw) (c_str command) (c_str command :: args.map c_str) <;> rfl

/-- C15: `Utils::executeCommand` returns -1 when `fork` fails. When `fork`
succeeds: if `execvp` fails in the child, the child exits with 127 and the
result is 127; if the program exits normally with status `n`, the result is the
exit status `n % 256`, which is `n` when `n` is at most 255 (0 for a program
that exits with 0); if the child is killed by a signal, the result is -1. In
every case the result is -1 or lies between 0 and 255. -/
theorem executeCommand_result (os : OS) (command : Str) (args : List Str)
    (user : Option Str) :
    (os.forkOk = false → (Utils.executeCommand os command args user).1 = -1) ∧
    (os.forkOk = true →
      (os.execvp (user.bind (fun name => os.getpwnam (c_str name))) (c_str command)
          (c_str command :: args.map c_str) = none →
        (Utils.executeCommand os command args user).1 = 127) ∧
      (∀ n : Nat,
        os.execvp (user.bind (fun name => os.getpwnam (c_str name))) (c_str command)
          (c_str command :: args.map c_str) = some (WaitStatus.exited n) →
        (Utils.executeCommand os command args user).1 = ((n % 256 : Nat) : Int) ∧
        (n ≤ 255 → (Utils.executeCommand os command args user).1 = (n : Int))) ∧
      (∀ sig : Nat,
        os.execvp (user.bind (fun name => os.getpwnam (c_str name))) (c_str command)
          (c_str command :: args.map c_str) = some (WaitStatus.signaled sig) →
        (Utils.executeCommand os command args user).1 = -1)) ∧
    ((Utils.executeCommand os command args user).1 = -1 ∨
      (0 ≤ (Utils.executeCommand os command args user).1 ∧
        (Utils.executeCommand os command args user).1 ≤ 255)) := by
  have hpw : (match user with
      | some name => os.getpwnam (c_str name)
      | none => none) = user.bind (fun name => os.getpwnam (c_str name)) := by
    cases user <;> rfl
  unfold Utils.executeCommand
  simp only [hpw]
  cases hf : os.forkOk
  · simp
  · cases he : os.execvp (user.bind (fun name => os.getpwnam (c_str name))) (c_str command)
        (c_str command :: args.map c_str) with
    | none => simp [Utils.waitResult, WIFEXITED, WEXITSTATUS]
    | some w =>
      cases w with
      | exited n =>
        simp only [Utils.waitResult, WIFEXITED, WEXITSTATUS]
        refine ⟨by simp, fun _ => ⟨by simp, ?_, by simp⟩, ?_⟩
        · intro m hm
          have hmn : n = m := by simpa using hm
          subst hmn
          refine ⟨by simp, fun hle => ?_⟩
          have : n % 256 = n := Nat.mod_eq_of_lt (by omega)
          simp [this]
        · right
          have : n % 256 < 256 := Nat.mod_lt _ (by omega)
          simp only [Bool.not_true, Bool.false_eq_true, if_false, if_true]
          omega
      | signaled sig => simp [Utils.waitResult, WIFEXITED]

/-- C15 at concrete inputs: no `fork`, result -1; a command that does not
exist, result 127; `/bin/true` with no target user, result 0; a child killed by
a signal, result -1. -/
theorem executeCommand_result_witness :
    (Utils.executeCommand sampleNoForkOS "/bin/true".toList [] none).1 = -1 ∧
    (Utils.executeCommand (sampleOS 0 none) "/no/such/command".toList [] none).1 = 127 ∧
    (Utils.executeCommand (sampleOS 0 none) "/bin/true".toList [] none).1 = 0 ∧
    (Utils.executeCommand sampleKilledOS "/bin/true".toList [] none).1 = -1 :=
  ⟨(executeCommand_result sampleNoForkOS "/bin/true".toList [] none).1 (by decide),
   ((executeCommand_result (sampleOS 0 none) "/no/such/command".toList [] none).2.1
      (by decide)).1 (by decide),
   (((executeCommand_result (sampleOS 0 none) "/bin/true".toList [] none).2.1
      (by decide)).2.1 0 (by decide)).2 (by decide),
   ((executeCommand_result sampleKilledOS "/bin/true".toList [] none).2.1
      (by decide)).2.2 9 (by decide)⟩


/-! ## Reading lines and lists: `getline`, `getlines`, `trim` -/

/-- Up to the first delimiter, `takeWhile` keeps exactly what precedes it. -/
theorem takeWhile_before (d : Char) (a b : Str) (h : d ∉ a) :
    (a ++ d :: b).takeWhile (fun c => c != d) = a ∧
    (a ++ d :: b).dropWhile (fun c => c != d) = d :: b := by
  induction a with
  | nil => simp
  | cons x a ih =>
    have hx : x ≠ d := fun e => h (e ▸ List.mem_cons_self _ _)
    have ha : d ∉ a := fun e => h (List.mem_cons_of_mem _ e)
    have := ih ha
    simp [List.takeWhile_cons, List.dropWhile_cons, hx, this.1, this.2]

/-- A string without the delimiter is taken whole. -/
theorem takeWhile_whole (d : Char) (a : Str) (h : d ∉ a) :
    a.takeWhile (fun c => c != d) = a ∧ a.dropWhile (fun c => c != d) = [] := by
  constructor
  · rw [List.takeWhile_eq_self_iff]
    intro c hc
    have : c ≠ d := fun e => h (e ▸ hc)
    simpa using this
  · rw [List.dropWhile_eq_nil_iff]
    intro c hc
    have : c ≠ d := fun e => h (e ▸ hc)
    simpa using this

/-- One read on content that is not exhausted. -/
theorem getline_of_ne_nil (d : Char) (s : Str) (hne : s ≠ []) :
    getline d s =
      some (s.takeWhile (fun c => c != d), (s.dropWhile (fun c => c != d)).drop 1) := by
  cases s with
  | nil => exact absurd rfl hne
  | cons x xs => rfl

/-- One read up to a delimiter that is present. -/
theorem getline_split (d : Char) (a b : Str) (h : d ∉ a) :
    getline d (a ++ d :: b) = some (a, b) := by
  have := takeWhile_before d a b h
  rw [getline_of_ne_nil d _ (by simp), this.1, this.2]
  rfl

/-- One read on non-empty content without the delimiter takes everything. -/
theorem getline_whole (d : Char) (a : Str) (h : d ∉ a) (hne : a ≠ []) :
    getline d a = some (a, []) := by
  have := takeWhile_whole d a h
  rw [getline_of_ne_nil d _ hne, this.1, this.2]
  rfl

/-- The read loop: the piece before the first delimiter, then the pieces of the rest. -/
theorem getlines_append_delim (d : Char) (a b : Str) (h : d ∉ a) :
    getlines d (a ++ d :: b) = a :: getlines d b := by
  induction a with
  | nil => simp [getlines]
  | cons x a ih =>
    have hx : x ≠ d := fun e => h (e ▸ List.mem_cons_self _ _)
    have ha : d ∉ a := fun e => h (List.mem_cons_of_mem _ e)
    simp [getlines, hx, ih ha]

/-- The read loop on non-empty content without the delimiter: one piece. -/
theorem getlines_no_delim (d : Char) (a : Str) (h : d ∉ a) (hne : a ≠ []) :
    getlines d a = [a] := by
  induction a with
  | nil => exact absurd rfl hne
  | cons x a ih =>
    have hx : x ≠ d := fun e => h (e ▸ List.mem_cons_self _ _)
    have ha : d ∉ a := fun e => h (List.mem_cons_of_mem _ e)
    cases a with
    | nil => simp [getlines, hx]
    | cons y a => rw [getlines, if_neg hx, ih ha (by simp)]

/-- No piece read by the loop holds the delimiter. -/
theorem getlines_not_mem (d : Char) (s : Str) : ∀ l ∈ getlines d s, d ∉ l := by
  induction s with
  | nil => simp [getlines]
  | cons x s ih =>
    by_cases hx : x = d
    · intro l hl
      simp only [getlines, hx, if_true, List.mem_cons] at hl
      rcases hl with hl | hl
      · simp [hl]
      · exact ih l hl
    · intro l hl
      simp only [getlines, hx, if_false] at hl
      cases hg : getlines d s with
      | nil =>
        rw [hg] at hl
        simp only [List.mem_singleton] at hl
        subst hl
        simpa using fun e : d = x => hx e.symm
      | cons p ps =>
        rw [hg] at hl ih
        simp only [List.mem_cons] at hl
        rcases hl with hl | hl
        · subst hl
          have hp := ih p (List.mem_cons_self _ _)
          simp only [List.mem_cons, not_or]
          exact ⟨fun e => hx e.symm, hp⟩
        · exact ih l (List.mem_cons_of_mem _ hl)

/-- A text of one line, with or without its newline, is read as that line. -/
theorem getlines_single_line (line : Str) (hnl : '\n' ∉ line) (hne : line ≠ []) :
    getlines '\n' line = [line] ∧ getlines '\n' (line ++ ['\n']) = [line] := by
  refine ⟨getlines_no_delim _ _ hnl hne, ?_⟩
  rw [getlines_append_delim _ _ _ hnl]
  rfl

/-- The function `trim` written with the library's two-sided `dropWhile`. -/
theorem trim_eq (s : Str) : trim s = (s.dropWhile isBlank).rdropWhile isBlank := rfl

/-- A string with no space or tab at either end is left as it is by `trim`. -/
theorem trim_eq_self (t : Str) (hh : ∀ ch ∈ t.head?, isBlank ch = false)
    (hl : ∀ ch ∈ t.getLast?, isBlank ch = false) : trim t = t := by
  have h1 : t.dropWhile isBlank = t := by
    cases t with
    | nil => rfl
    | cons x t =>
      have := hh x (by simp)
      simp [List.dropWhile_cons, this]
  rw [trim_eq, h1, List.rdropWhile_eq_self_iff]
  intro hne
  have := hl (t.getLast hne) (by simp [List.getLast?_eq_getLast t hne])
  simp [this]

/-- A leading space or tab does not change the result of `trim`. -/
theorem trim_cons_blank (b : Char) (s : Str) (hb : isBlank b = true) :
    trim (b :: s) = trim s := by
  unfold trim
  rw [List.dropWhile_cons_of_pos hb]

/-- A trailing space or tab does not change the result of `trim`. -/
theorem trim_concat_blank (b : Char) (s : Str) (hb : isBlank b = true) :
    trim (s ++ [b]) = trim s := by
  rw [trim_eq, trim_eq, List.dropWhile_append]
  by_cases he : (s.dropWhile isBlank).isEmpty = true
  · have : s.dropWhile isBlank = [] := by simpa using he
    simp [he, this, List.dropWhile_cons_of_pos hb, List.rdropWhile]
  · simp only [he]
    exact List.rdropWhile_concat_pos _ _ _ hb


/-- What one comma-separated piece contributes to the list: its trimmed text,
unless that is empty. -/
theorem filter_piece (a : Str) :
    ([trim a].filter (fun x => !x.isEmpty)) = if trim a = [] then [] else [trim a] := by
  cases h : trim a <;> simp

/-- The list loop on a value without a comma. -/
theorem splitList_no_comma (a : Str) (h : ',' ∉ a) :
    splitList a = if trim a = [] then [] else [trim a] := by
  by_cases hne : a = []
  · subst hne
    rfl
  · unfold splitList
    rw [getlines_no_delim _ _ h hne, List.map_singleton, filter_piece]

/-- The list loop on a value with a comma: the first piece, then the rest. -/
theorem splitList_append_comma (a rest : Str) (h : ',' ∉ a) :
    splitList (a ++ ',' :: rest) = (if trim a = [] then [] else [trim a]) ++ splitList rest := by
  unfold splitList
  rw [getlines_append_delim _ _ _ h, List.map_cons, ← filter_piece]
  rw [← List.filter_append]
  rfl

/-- A space or a tab is not a comma. -/
theorem ne_comma_of_blank (b : Char) (hb : isBlank b = true) : b ≠ ',' := by
  intro h
  subst h
  revert hb
  decide

/-- A leading space or tab does not change the list read from a value. -/
theorem splitList_cons_blank (b : Char) (s : Str) (hb : isBlank b = true) :
    splitList (b :: s) = splitList s := by
  have hbc := ne_comma_of_blank b hb
  by_cases hs : ',' ∈ s
  · obtain ⟨a, rest, hsplit, ha⟩ := List.eq_append_cons_of_mem hs
    have hba : ',' ∉ b :: a := by
      simp only [List.mem_cons, not_or]
      exact ⟨fun e => hbc e.symm, ha⟩
    rw [hsplit, ← List.cons_append, splitList_append_comma _ _ hba,
      splitList_append_comma _ _ ha, trim_cons_blank b a hb]
  · have hbs : ',' ∉ b :: s := by
      simp only [List.mem_cons, not_or]
      exact ⟨fun e => hbc e.symm, hs⟩
    rw [splitList_no_comma _ hbs, splitList_no_comma _ hs, trim_cons_blank b s hb]

/-- A trailing space or tab does not change the list read from a value. -/
theorem splitList_concat_blank (b : Char) (hb : isBlank b = true) :
    ∀ (n : Nat) (s : Str), s.length ≤ n → splitList (s ++ [b]) = splitList s := by
  have hbc := ne_comma_of_blank b hb
  intro n
  induction n with
  | zero =>
    intro s hs
    have : s = [] := List.length_eq_zero.1 (by omega)
    subst this
    have h1 : ',' ∉ [b] := by
      simp only [List.mem_singleton]
      exact fun e => hbc e.symm
    rw [List.nil_append, splitList_no_comma _ h1, splitList_no_comma _ (by simp)]
    rw [show [b] = [] ++ [b] from rfl, trim_concat_blank b [] hb]
  | succ n ih =>
    intro s hs
    by_cases hc : ',' ∈ s
    · obtain ⟨a, rest, hsplit, ha⟩ := List.eq_append_cons_of_mem hc
      have hlen : rest.length ≤ n := by
        have := congrArg List.length hsplit
        simp at this
        omega
      rw [hsplit, List.append_assoc, List.cons_append, splitList_append_comma _ _ ha,
        splitList_append_comma _ _ ha, ih rest hlen]
    · have h1 : ',' ∉ s ++ [b] := by
        simp only [List.mem_append, List.mem_singleton, not_or]
        exact ⟨hc, fun e => hbc e.symm⟩
      rw [splitList_no_comma _ h1, splitList_no_comma _ hc, trim_concat_blank b s hb]

/-- Trimming the whole value first, as the code does, does not change the list
read from it. -/
theorem splitList_trim (s : Str) : splitList (trim s) = splitList s := by
  have hleft : ∀ t : Str, splitList (t.dropWhile isBlank) = splitList t := by
    intro t
    induction t with
    | nil => rfl
    | cons x t ih =>
      by_cases hx : isBlank x = true
      · rw [List.dropWhile_cons_of_pos hx, ih, splitList_cons_blank x t hx]
      · rw [List.dropWhile_cons_of_neg hx]
  have hright : ∀ t : Str, splitList (t.rdropWhile isBlank) = splitList t := by
    intro t
    induction t using List.reverseRecOn with
    | nil => rfl
    | append_singleton t x ih =>
      by_cases hx : isBlank x = true
      · rw [List.rdropWhile_concat_pos _ _ _ hx, ih,
          splitList_concat_blank x hx t.length t (le_refl _)]
      · rw [List.rdropWhile_concat_neg _ _ _ hx]
  rw [trim_eq, hright, hleft]

/-! ## `Config::parseConfigLine` on a rule line and on a setting line -/

/-- A line that is not empty and does not start with `#` goes to `parseConfigLine`. -/
theorem loadLine_of_not_comment (c : Config) (line : Str) (hne : line ≠ [])
    (hc : line.head? ≠ some '#') : c.loadLine line = c.parseConfigLine line := by
  cases line with
  | nil => exact absurd rfl hne
  | cons x xs =>
    have hx : x ≠ '#' := fun e => hc (by simp [e])
    simp [Config.loadLine, hx]

/-- A text of one line, with or without its newline, runs the loop body once. -/
theorem loadText_single_line (c : Config) (line text : Str) (hnl : '\n' ∉ line)
    (hne : line ≠ []) (htext : text = line ∨ text = line ++ ['\n']) :
    c.loadText text = c.loadLine line := by
  have := getlines_single_line line hnl hne
  unfold Config.loadText
  rcases htext with h | h <;> subst h
  · rw [this.1]
    rfl
  · rw [this.2]
    rfl

/-- A rule line with text after its first `:` stores the list read from that text
under the trimmed text before the `:`. -/
theorem parseConfigLine_rule (c : Config) (before after : Str)
    (hcolon : ':' ∉ before) (hafter : after ≠ [])
    (heq : '=' ∉ before ++ ':' :: after) (hnl : '\n' ∉ after) :
    c.parseConfigLine (before ++ ':' :: after) =
      { c with user_commands_ :=
          Function.update c.user_commands_ (trim before) (some (splitList after)) } := by
  have h1 : (before ++ ':' :: after).contains ':' = true := by simp
  have h2 : (before ++ ':' :: after).contains '=' = false := by
    rw [← Bool.not_eq_true]
    simpa using heq
  unfold Config.parseConfigLine
  rw [h1, h2, getline_split _ _ _ hcolon]
  simp only [Bool.not_false, Bool.and_self, if_true]
  rw [getline_whole _ _ hnl hafter]
  simp only [splitList_trim]

/-- A rule line with nothing after its first `:` changes nothing: the second
read fails. -/
theorem parseConfigLine_rule_empty (c : Config) (before : Str)
    (hcolon : ':' ∉ before) (heq : '=' ∉ before) :
    c.parseConfigLine (before ++ [':']) = c := by
  have h1 : (before ++ [':']).contains ':' = true := by simp
  have h2 : (before ++ [':']).contains '=' = false := by
    rw [← Bool.not_eq_true]
    simpa using heq
  unfold Config.parseConfigLine
  rw [h1, h2, getline_split _ _ _ hcolon]
  rfl


/-! ## Rule lines: round trip and empty lists -/

/-- Joining two or more tokens with a separator. -/
theorem intercalate_cons_cons (sep x y : Str) (l : List Str) :
    sep.intercalate (x :: y :: l) = x ++ sep ++ sep.intercalate (y :: l) := by
  simp [List.intercalate, List.intersperse]

/-- Joining one token. -/
theorem intercalate_singleton (sep x : Str) : sep.intercalate [x] = x := by
  simp [List.intercalate, List.intersperse]

/-- A character of a joined list comes from the separator or from a token. -/
theorem mem_intercalate (sep : Str) (tokens : List Str) (ch : Char)
    (h : ch ∈ sep.intercalate tokens) : ch ∈ sep ∨ ∃ t ∈ tokens, ch ∈ t := by
  induction tokens with
  | nil => simp [List.intercalate, List.intersperse] at h
  | cons x l ih =>
    cases l with
    | nil =>
      rw [intercalate_singleton] at h
      exact Or.inr ⟨x, List.mem_cons_self _ _, h⟩
    | cons y l =>
      rw [intercalate_cons_cons, List.mem_append, List.mem_append] at h
      rcases h with (h | h) | h
      · exact Or.inr ⟨x, List.mem_cons_self _ _, h⟩
      · exact Or.inl h
      · rcases ih h with h | ⟨t, ht, hc⟩
        · exact Or.inl h
        · exact Or.inr ⟨t, List.mem_cons_of_mem _ ht, hc⟩

/-- The list loop reads back the tokens joined with a comma and a space. -/
theorem splitList_intercalate (tokens : List Str) (htok : ∀ t ∈ tokens, PlainToken t) :
    splitList (", ".toList.intercalate tokens) = tokens := by
  induction tokens with
  | nil => rfl
  | cons x l ih =>
    obtain ⟨hne, hch, hh, hl⟩ := htok x (List.mem_cons_self _ _)
    have hcomma : ',' ∉ x := fun h => (hch ',' h).1 rfl
    have htrim : trim x = x := trim_eq_self x hh hl
    cases l with
    | nil =>
      rw [intercalate_singleton, splitList_no_comma _ hcomma, htrim, if_neg hne]
    | cons y l =>
      have ih' := ih (fun t ht => htok t (List.mem_cons_of_mem _ ht))
      have hshape : x ++ ", ".toList ++ ", ".toList.intercalate (y :: l) =
          x ++ ',' :: (' ' :: ", ".toList.intercalate (y :: l)) := by
        simp
      rw [intercalate_cons_cons, hshape, splitList_append_comma _ _ hcomma, htrim, if_neg hne,
        splitList_cons_blank ' ' _ (by decide), ih']
      rfl

/-- C16: round trip of a rule line. For a name and a list of tokens (non-empty
or not), each not empty, without `,`, `:`, `=` or newline and without a space or
tab at either end, the name not starting with `#`: after loading the text made
of the line `name: t1, t2, ..., tn` (with or without its final newline) into any
store, `getAllowedCommands(name)` is exactly the list of tokens, in order. -/
theorem rule_line_round_trip (c : Config) (name : Str) (tokens : List Str) (text : Str)
    (hname : PlainToken name) (hhash : name.head? ≠ some '#')
    (htok : ∀ t ∈ tokens, PlainToken t)
    (htext : text = name ++ ": ".toList ++ ", ".toList.intercalate tokens ∨
      text = name ++ ": ".toList ++ ", ".toList.intercalate tokens ++ ['\n']) :
    (c.loadText text).getAllowedCommands name = tokens := by
  obtain ⟨hnne, hnch, hnh, hnl⟩ := hname
  have hline : name ++ ": ".toList ++ ", ".toList.intercalate tokens =
      name ++ ':' :: (' ' :: ", ".toList.intercalate tokens) := by
    simp
  have hjoin : ∀ ch ∈ ", ".toList.intercalate tokens, ch ≠ '=' ∧ ch ≠ '\n' := by
    intro ch hch
    rcases mem_intercalate _ _ _ hch with h | ⟨t, ht, h⟩
    · have : ch = ',' ∨ ch = ' ' := by simpa using h
      rcases this with h | h <;> subst h <;> decide
    · exact ⟨((htok t ht).2.1 ch h).2.2.1, ((htok t ht).2.1 ch h).2.2.2⟩
  have hafter : ∀ ch ∈ ' ' :: ", ".toList.intercalate tokens, ch ≠ '=' ∧ ch ≠ '\n' := by
    intro ch hch
    rcases List.mem_cons.1 hch with h | h
    · subst h
      decide
    · exact hjoin ch h
  have hcolon : ':' ∉ name := fun h => (hnch ':' h).2.1 rfl
  have heq : '=' ∉ name ++ ':' :: (' ' :: ", ".toList.intercalate tokens) := by
    intro h
    rcases List.mem_append.1 h with h | h
    · exact (hnch '=' h).2.2.1 rfl
    · rcases List.mem_cons.1 h with h | h
      · exact absurd h (by decide)
      · exact (hafter '=' h).1 rfl
  have hnl1 : '\n' ∉ ' ' :: ", ".toList.intercalate tokens := fun h => (hafter '\n' h).2 rfl
  have hnl2 : '\n' ∉ name ++ ':' :: (' ' :: ", ".toList.intercalate tokens) := by
    intro h
    rcases List.mem_append.1 h with h | h
    · exact (hnch '\n' h).2.2.2 rfl
    · rcases List.mem_cons.1 h with h | h
      · exact absurd h (by decide)
      · exact hnl1 h
  have hhead : (name ++ ':' :: (' ' :: ", ".toList.intercalate tokens)).head? ≠ some '#' := by
    cases name with
    | nil => exact absurd rfl hnne
    | cons x xs => simpa using hhash
  rw [hline] at htext
  rw [loadText_single_line c _ text hnl2 (by simp) htext,
    loadLine_of_not_comment c _ (by simp) hhead,
    parseConfigLine_rule c name _ hcolon (by simp) heq hnl1]
  rw [trim_eq_self name hnh hnl, splitList_cons_blank ' ' _ (by decide),
    splitList_intercalate tokens htok]
  simp only [Config.getAllowedCommands, Function.update_same]

/-- C16 at concrete inputs: loading `alice: ls, whoami` gives `alice` the list
`["ls", "whoami"]`, in that order. -/
theorem rule_line_round_trip_witness :
    (Config.empty.loadText "alice: ls, whoami\n".toList).getAllowedCommands "alice".toList
      = ["ls".toList, "whoami".toList] :=
  rule_line_round_trip Config.empty "alice".toList ["ls".toList, "whoami".toList]
    "alice: ls, whoami\n".toList (by decide) (by decide) (by decide) (Or.inr (by decide))

/-- C17, the claim fails on `alice:`: the line is not empty, does not start with
`#`, has a `:` and no `=`, yet loading it (with or without a newline) creates no
entry for `alice`, and `isUserAllowed("alice")` stays false. -/
theorem rule_line_entry_counterexample :
    "alice:".toList ≠ [] ∧ "alice:".toList.head? ≠ some '#' ∧
    ':' ∈ "alice:".toList ∧ '=' ∉ "alice:".toList ∧
    (Config.empty.loadText "alice:".toList).user_commands_ "alice".toList = none ∧
    (Config.empty.loadText "alice:\n".toList).user_commands_ "alice".toList = none ∧
    (Config.empty.loadText "alice:\n".toList).isUserAllowed "alice".toList = false := by
  decide

/-- C17 as amended: for every line that does not start with `#`, has no `=`
and has at least one character after its first `:`, loading it (with or without
its final newline) creates an entry for the trimmed text before that `:`, whose
value is the list of the non-empty trimmed comma-separated tokens of the text
after that `:`, also when that list is empty; `isUserAllowed` is then true for
that identity, and `getAllowedCommands` is that list. -/
theorem rule_line_entry (c : Config) (before after text : Str)
    (hcolon : ':' ∉ before) (hafter : after ≠ [])
    (heq : '=' ∉ before ++ ':' :: after) (hnl : '\n' ∉ before ++ ':' :: after)
    (hcomment : (before ++ ':' :: after).head? ≠ some '#')
    (htext : text = before ++ ':' :: after ∨ text = before ++ ':' :: after ++ ['\n']) :
    (c.loadText text).user_commands_ (trim before) = some (splitList after) ∧
    (c.loadText text).isUserAllowed (trim before) = true ∧
    (c.loadText text).getAllowedCommands (trim before) = splitList after ∧
    (splitList after = [] → (c.loadText text).getAllowedCommands (trim before) = []) := by
  have hnl1 : '\n' ∉ after := fun h =>
    hnl (List.mem_append.2 (Or.inr (List.mem_cons_of_mem _ h)))
  rw [loadText_single_line c _ text hnl (by simp) htext,
    loadLine_of_not_comment c _ (by simp) hcomment,
    parseConfigLine_rule c before after hcolon hafter heq hnl1]
  have h1 : Function.update c.user_commands_ (trim before) (some (splitList after))
      (trim before) = some (splitList after) := Function.update_same _ _ _
  refine ⟨h1, ?_, ?_, ?_⟩
  · unfold Config.isUserAllowed
    simp only [h1, Option.isSome_some]
    split <;> simp
  · simp only [Config.getAllowedCommands, h1]
  · intro he
    rw [← he]
    simp only [Config.getAllowedCommands, h1]

/-- C17 as amended, at concrete inputs: the line `alice: ,` creates an entry
for `alice` with no command; `isUserAllowed` is true and the list is empty. -/
theorem rule_line_entry_witness :
    (Config.empty.loadText "alice: ,\n".toList).user_commands_ "alice".toList = some [] ∧
    (Config.empty.loadText "alice: ,\n".toList).isUserAllowed "alice".toList = true ∧
    (Config.empty.loadText "alice: ,\n".toList).getAllowedCommands "alice".toList = [] :=
  ⟨(rule_line_entry Config.empty "alice".toList " ,".toList "alice: ,\n".toList
      (by decide) (by decide) (by decide) (by decide) (by decide) (Or.inr (by decide))).1,
   (rule_line_entry Config.empty "alice".toList " ,".toList "alice: ,\n".toList
      (by decide) (by decide) (by decide) (by decide) (by decide) (Or.inr (by decide))).2.1,
   (rule_line_entry Config.empty "alice".toList " ,".toList "alice: ,\n".toList
      (by decide) (by decide) (by decide) (by decide) (by decide) (Or.inr (by decide))).2.2.2
      (by decide)⟩


/-! ## `Config::isUserAllowed`, `Config::load` and the global settings -/

/-- C18: `Config::isUserAllowed(identity)` is true if and only if the identity
equals one of the trimmed comma-separated tokens of the value stored under the
key `allowed_users`, or has an entry in the rule mapping; so it is false for an
identity absent from both, whatever else the store holds. -/
theorem isUserAllowed_iff (c : Config) (identity : Str) :
    (c.isUserAllowed identity = true ↔
      ((∃ value, c.get "allowed_users".toList = some value ∧
          identity ∈ (getlines ',' value).map trim) ∨
        (c.user_commands_ identity).isSome = true)) ∧
    ((∀ value, c.get "allowed_users".toList = some value →
        identity ∉ (getlines ',' value).map trim) →
      c.user_commands_ identity = none → c.isUserAllowed identity = false) := by
  have hany : ∀ value : Str,
      ((getlines ',' value).map trim).any (fun user => user == identity) = true ↔
        identity ∈ (getlines ',' value).map trim := by
    intro value
    rw [List.any_eq_true]
    constructor
    · rintro ⟨u, hu, he⟩
      rw [beq_iff_eq] at he
      exact he ▸ hu
    · intro h
      exact ⟨identity, h, beq_self_eq_true _⟩
  have key : c.isUserAllowed identity = true ↔
      ((∃ value, c.get "allowed_users".toList = some value ∧
          identity ∈ (getlines ',' value).map trim) ∨
        (c.user_commands_ identity).isSome = true) := by
    unfold Config.isUserAllowed Config.get
    cases hv : c.config_data_ "allowed_users".toList with
    | none => simp
    | some value =>
      have := hany value
      cases hb : ((getlines ',' value).map trim).any (fun user => user == identity)
      · have hn : identity ∉ (getlines ',' value).map trim := by
          rw [← this, hb]
          simp
        simp only [hb, Bool.false_eq_true, if_false, Option.some.injEq, exists_eq_left', hn,
          false_or]
      · have hm := this.1 hb
        simp only [hb, if_true, Option.some.injEq, exists_eq_left', hm, true_or]
  refine ⟨key, ?_⟩
  intro hlist hrule
  rw [← Bool.not_eq_true, key]
  rintro (⟨value, hv, hm⟩ | h)
  · exact hlist value hv hm
  · rw [hrule] at h
    exact absurd h (by simp)

/-- C18 at concrete inputs: with `allowed_users = bob , carol`, a rule for
`alice` and another key naming `dave`, the store allows `bob`, `carol` and
`alice`, and not `dave`. -/
theorem isUserAllowed_iff_witness :
    sampleStore.isUserAllowed "bob".toList = true ∧
    sampleStore.isUserAllowed "carol".toList = true ∧
    sampleStore.isUserAllowed "alice".toList = true ∧
    sampleStore.isUserAllowed "dave".toList = false :=
  ⟨(isUserAllowed_iff sampleStore "bob".toList).1.2
      (Or.inl ⟨"bob , carol".toList, by decide, by decide⟩),
   (isUserAllowed_iff sampleStore "carol".toList).1.2
      (Or.inl ⟨"bob , carol".toList, by decide, by decide⟩),
   (isUserAllowed_iff sampleStore "alice".toList).1.2 (Or.inr (by decide)),
   (isUserAllowed_iff sampleStore "dave".toList).2
      (fun value hv => by
        have h2 : sampleStore.get "allowed_users".toList = some "bob , carol".toList := by
          decide
        rw [h2] at hv
        cases hv
        decide)
      (by decide)⟩

/-- C19: when the path cannot be opened, `Config::load` returns false and
leaves both mappings as they were; on a fresh store `get` then has no value for
any key, `getAllowedCommands` is empty and `isUserAllowed` is false for every
identity. When the path can be opened, `load` returns true whatever the file
holds. -/
theorem load_result (os : OS) (c : Config) (config_path : Str) :
    (os.readFile (c_str config_path) = none →
      c.load os config_path = (false, c) ∧
      ∀ key identity : Str,
        (Config.empty.load os config_path).2.get key = none ∧
        (Config.empty.load os config_path).2.getAllowedCommands identity = [] ∧
        (Config.empty.load os config_path).2.isUserAllowed identity = false) ∧
    (∀ text : Str, os.readFile (c_str config_path) = some text →
      (c.load os config_path).1 = true) := by
  constructor
  · intro h
    have hl : ∀ d : Config, d.load os config_path = (false, d) := by
      intro d
      simp only [Config.load, h]
    refine ⟨hl c, fun key identity => ?_⟩
    rw [hl]
    exact ⟨rfl, rfl, rfl⟩
  · intro text h
    simp only [Config.load, h]

/-- C19 at concrete inputs: on the sample machine without a configuration file
`load` fails and the store answers as an empty one; with a file, even one of
unparsable lines, `load` succeeds. -/
theorem load_result_witness :
    (Config.empty.load (sampleOS 0 none) "/etc/voix.conf".toList).1 = false ∧
    (Config.empty.load (sampleOS 0 none) "/etc/voix.conf".toList).2.get
      "allowed_users".toList = none ∧
    (Config.empty.load (sampleOS 0 none) "/etc/voix.conf".toList).2.isUserAllowed
      "root".toList = false ∧
    (Config.empty.load (sampleOS 0 (some "???\n\n:=\n".toList)) "/etc/voix.conf".toList).1
      = true :=
  ⟨congrArg Prod.fst ((load_result (sampleOS 0 none) Config.empty "/etc/voix.conf".toList).1
      (by decide)).1,
   (((load_result (sampleOS 0 none) Config.empty "/etc/voix.conf".toList).1
      (by decide)).2 "allowed_users".toList "root".toList).1,
   (((load_result (sampleOS 0 none) Config.empty "/etc/voix.conf".toList).1
      (by decide)).2 "allowed_users".toList "root".toList).2.2,
   (load_result (sampleOS 0 (some "???\n\n:=\n".toList)) Config.empty
      "/etc/voix.conf".toList).2 "???\n\n:=\n".toList (by decide)⟩


/-- A setting line with text after its first `=` stores the trimmed text under
the trimmed key. -/
theorem parseConfigLine_setting (c : Config) (kt vt : Str)
    (hkt : '=' ∉ kt) (hvt : vt ≠ []) (hnl : '\n' ∉ vt) :
    c.parseConfigLine (kt ++ '=' :: vt) =
      { c with config_data_ := Function.update c.config_data_ (trim kt) (some (trim vt)) } := by
  have h2 : (kt ++ '=' :: vt).contains '=' = true := by simp
  unfold Config.parseConfigLine
  rw [h2, getline_split _ _ _ hkt]
  simp only [Bool.not_true, Bool.and_false, Bool.false_eq_true, if_false, if_true]
  rw [getline_whole _ _ hnl hvt]

/-- A setting line with nothing after its first `=` changes nothing: the second
read fails. -/
theorem parseConfigLine_setting_empty (c : Config) (kt : Str) (hkt : '=' ∉ kt) :
    c.parseConfigLine (kt ++ ['=']) = c := by
  have h2 : (kt ++ ['=']).contains '=' = true := by simp
  unfold Config.parseConfigLine
  rw [h2, getline_split _ _ _ hkt]
  simp only [Bool.not_true, Bool.and_false, Bool.false_eq_true, if_false, if_true]
  rfl

/-- A line without `=` leaves the global settings as they were. -/
theorem parseConfigLine_config_data_of_no_eq (c : Config) (line : Str) (h : '=' ∉ line) :
    (c.parseConfigLine line).config_data_ = c.config_data_ := by
  have h2 : line.contains '=' = false := by
    rw [← Bool.not_eq_true]
    simpa using h
  unfold Config.parseConfigLine
  rw [h2]
  cases line.contains ':'
  · rfl
  · simp only [Bool.not_false, Bool.and_self, if_true]
    cases getline ':' line with
    | none => rfl
    | some p =>
      obtain ⟨username, rest⟩ := p
      dsimp only
      cases getline '\n' rest with
      | none => rfl
      | some q => rfl

/-- One line of the loop either leaves the value of a key as it was, or is a
setting line for that key: not a comment, with the key before its first `=`
and some text after it. -/
theorem loadLine_config_data (c : Config) (line k : Str) (hnl : '\n' ∉ line) :
    (c.loadLine line).config_data_ k = c.config_data_ k ∨
      ∃ kt vt : Str, line = kt ++ '=' :: vt ∧ '=' ∉ kt ∧ vt ≠ [] ∧
        line.head? ≠ some '#' ∧ trim kt = k := by
  by_cases hne : line = []
  · subst hne
    exact Or.inl rfl
  by_cases hc : line.head? = some '#'
  · left
    cases line with
    | nil => exact absurd rfl hne
    | cons x xs =>
      have hx : x = '#' := by simpa using hc
      simp [Config.loadLine, hx]
  rw [loadLine_of_not_comment c line hne hc]
  by_cases heq : '=' ∈ line
  · obtain ⟨kt, vt, hsplit, hkt⟩ := List.eq_append_cons_of_mem heq
    by_cases hvt : vt = []
    · left
      rw [hsplit, hvt, parseConfigLine_setting_empty c kt hkt]
    · have hnl' : '\n' ∉ vt := by
        intro h
        apply hnl
        rw [hsplit]
        exact List.mem_append.2 (Or.inr (List.mem_cons_of_mem _ h))
      by_cases hk : trim kt = k
      · exact Or.inr ⟨kt, vt, hsplit, hkt, hvt, hc, hk⟩
      · left
        rw [hsplit, parseConfigLine_setting c kt vt hkt hvt hnl']
        exact Function.update_noteq (fun e => hk e.symm) _ _
  · left
    rw [parseConfigLine_config_data_of_no_eq c line heq]

/-- Lines none of which is a setting line for a key leave its value as it was. -/
theorem foldl_loadLine_config_data (k : Str) (post : List Str) :
    ∀ c : Config, (∀ l ∈ post, '\n' ∉ l) →
      (∀ l ∈ post, ∀ kt vt : Str, l = kt ++ '=' :: vt → '=' ∉ kt → vt ≠ [] →
        l.head? ≠ some '#' → trim kt ≠ k) →
      (post.foldl Config.loadLine c).config_data_ k = c.config_data_ k := by
  induction post with
  | nil => intro c _ _; rfl
  | cons l post ih =>
    intro c hnl hlast
    rw [List.foldl_cons, ih (c.loadLine l) (fun m hm => hnl m (List.mem_cons_of_mem _ hm))
      (fun m hm => hlast m (List.mem_cons_of_mem _ hm))]
    rcases loadLine_config_data c l k (hnl l (List.mem_cons_self _ _)) with h | h
    · exact h
    · obtain ⟨kt, vt, hsplit, hkt, hvt, hc, hk⟩ := h
      exact absurd hk (hlast l (List.mem_cons_self _ _) kt vt hsplit hkt hvt hc)

/-- C20, the claim fails on the text `a = 1` / `a =`: both lines hold a `=`, are
not comments and have the trimmed key `a`; the last of them has the trimmed
value `""` (nothing follows its `=`), yet after loading `get("a")` is `1`: the
read of the value fails on the second line, which is then skipped. -/
theorem get_last_setting_counterexample :
    getlines '\n' "a = 1\na =\n".toList = ["a = 1".toList, "a =".toList] ∧
    trim ("a = 1".toList.takeWhile (fun ch => ch != '=')) = "a".toList ∧
    trim ("a =".toList.takeWhile (fun ch => ch != '=')) = "a".toList ∧
    trim (("a =".toList.dropWhile (fun ch => ch != '=')).drop 1) = [] ∧
    (Config.empty.loadText "a = 1\na =\n".toList).get "a".toList = some "1".toList ∧
    (Config.empty.loadText "a = 1\na =\n".toList).get "a".toList ≠ some [] := by
  decide

/-- C20 as amended: last write wins for a global key, among the lines that have
text after their first `=`. If, among the lines of a configuration text, a
`key = value` line (not a comment, the key text before its first `=`, at least
one character after it) is followed by no later such line with the same trimmed
key, then after loading `get` of the trimmed key returns the trimmed value of
that line, whatever earlier lines stored for the key; a key has that one value
only. -/
theorem get_last_setting (c : Config) (text : Str) (pre post : List Str) (kt vt : Str)
    (hlines : getlines '\n' text = pre ++ (kt ++ '=' :: vt) :: post)
    (hkt : '=' ∉ kt) (hvt : vt ≠ []) (hcomment : (kt ++ '=' :: vt).head? ≠ some '#')
    (hlast : ∀ l ∈ post, ∀ kt' vt' : Str, l = kt' ++ '=' :: vt' → '=' ∉ kt' → vt' ≠ [] →
      l.head? ≠ some '#' → trim kt' ≠ trim kt) :
    (c.loadText text).get (trim kt) = some (trim vt) ∧
    ∀ value : Str, (c.loadText text).get (trim kt) = some value → value = trim vt := by
  have hmem : ∀ l ∈ pre ++ (kt ++ '=' :: vt) :: post, '\n' ∉ l := by
    rw [← hlines]
    exact getlines_not_mem '\n' text
  have hnl : '\n' ∉ vt := by
    intro h
    exact hmem (kt ++ '=' :: vt) (by simp)
      (List.mem_append.2 (Or.inr (List.mem_cons_of_mem _ h)))
  have hpost : ∀ l ∈ post, '\n' ∉ l := fun l hl => hmem l (by simp [hl])
  have key : (c.loadText text).get (trim kt) = some (trim vt) := by
    unfold Config.loadText Config.get
    rw [hlines, List.foldl_append, List.foldl_cons,
      foldl_loadLine_config_data (trim kt) post _ hpost hlast,
      loadLine_of_not_comment _ _ (by simp) hcomment,
      parseConfigLine_setting _ kt vt hkt hvt hnl]
    exact Function.update_same _ _ _
  refine ⟨key, fun value hv => ?_⟩
  rw [key] at hv
  exact (Option.some.inj hv).symm

/-- C20 as amended, at concrete inputs: the key `a` is set on the first and on the third
line; after loading, `get("a")` is the value `3` of the third line, and
`get("b")` is `2`. -/
theorem get_last_setting_witness :
    (Config.empty.loadText "a = 1\nb = 2\na = 3\n".toList).get "a".toList
      = some "3".toList ∧
    (Config.empty.loadText "a = 1\nb = 2\na = 3\n".toList).get "b".toList
      = some "2".toList :=
  ⟨(get_last_setting Config.empty "a = 1\nb = 2\na = 3\n".toList
      ["a = 1".toList, "b = 2".toList] [] "a ".toList " 3".toList
      (by decide) (by decide) (by decide) (by decide) (by simp)).1,
   (get_last_setting Config.empty "a = 1\nb = 2\na = 3\n".toList
      ["a = 1".toList] ["a = 3".toList] "b ".toList " 2".toList
      (by decide) (by decide) (by decide) (by decide)
      (by
        intro l hl kt' vt' hsplit hkt' _ _ hk
        have hl' : l = "a = 3".toList := by simpa using hl
        subst hl'
        have h1 := takeWhile_before '=' kt' vt' hkt'
        rw [← hsplit] at h1
        have h2 : kt' = "a ".toList := h1.1.symm.trans (by decide)
        subst h2
        revert hk
        decide)).1⟩


/-! ## Line classification during `Config::load` -/

/-- The loop body either skips the line or hands it to `parseConfigLine`. -/
theorem loadLine_eq_or (c : Config) (line : Str) :
    c.loadLine line = c ∨ c.loadLine line = c.parseConfigLine line := by
  cases line with
  | nil => exact Or.inl rfl
  | cons x xs =>
    by_cases hx : x = '#'
    · left
      simp [Config.loadLine, hx]
    · right
      simp [Config.loadLine, hx]

/-- A line with a `=` leaves the rule mapping as it was. -/
theorem parseConfigLine_user_commands_of_eq (c : Config) (line : Str) (h : '=' ∈ line) :
    (c.parseConfigLine line).user_commands_ = c.user_commands_ := by
  have h2 : line.contains '=' = true := by simpa using h
  unfold Config.parseConfigLine
  rw [h2]
  simp only [Bool.not_true, Bool.and_false, Bool.false_eq_true, if_false, if_true]
  cases getline '=' line with
  | none => rfl
  | some p =>
    obtain ⟨key, rest⟩ := p
    dsimp only
    cases getline '\n' rest with
    | none => rfl
    | some q => rfl

/-- A line with neither `:` nor `=` is ignored by `parseConfigLine`. -/
theorem parseConfigLine_of_neither (c : Config) (line : Str)
    (hc : ':' ∉ line) (he : '=' ∉ line) : c.parseConfigLine line = c := by
  have h1 : line.contains ':' = false := by
    rw [← Bool.not_eq_true]
    simpa using hc
  have h2 : line.contains '=' = false := by
    rw [← Bool.not_eq_true]
    simpa using he
  unfold Config.parseConfigLine
  rw [h1, h2]
  rfl

/-- C21: line classification during load. A line that holds a `=` (with or
without a `:`) leaves the rule mapping as it was; a line that holds a `:` and
no `=` leaves the global mapping as it was; an empty line, a line whose first
character is `#`, and a line with neither `:` nor `=` leave the whole store as
it was. -/
theorem line_classification (c : Config) (line : Str) :
    ('=' ∈ line → (c.loadLine line).user_commands_ = c.user_commands_) ∧
    (':' ∈ line → '=' ∉ line → (c.loadLine line).config_data_ = c.config_data_) ∧
    ((line = [] ∨ line.head? = some '#' ∨ (':' ∉ line ∧ '=' ∉ line)) →
      c.loadLine line = c) := by
  refine ⟨?_, ?_, ?_⟩
  · intro h
    rcases loadLine_eq_or c line with h1 | h1
    · rw [h1]
    · rw [h1, parseConfigLine_user_commands_of_eq c line h]
  · intro _ h
    rcases loadLine_eq_or c line with h1 | h1
    · rw [h1]
    · rw [h1, parseConfigLine_config_data_of_no_eq c line h]
  · rintro (h | h | ⟨hc, he⟩)
    · subst h
      rfl
    · cases line with
      | nil => rfl
      | cons x xs =>
        have hx : x = '#' := by simpa using h
        simp [Config.loadLine, hx]
    · rcases loadLine_eq_or c line with h1 | h1
      · exact h1
      · rw [h1, parseConfigLine_of_neither c line hc he]

/-- C21 at concrete inputs, on the store `sampleStore`: the line
`path = /usr:/bin`, which holds both characters, sets the key `path` and leaves
the rules untouched; the line `bob: ls` gives `bob` a rule and leaves the
settings untouched; a comment and a line of plain words change nothing. -/
theorem line_classification_witness :
    ((sampleStore.loadLine "path = /usr:/bin".toList).get "path".toList
        = some "/usr:/bin".toList ∧
      (sampleStore.loadLine "path = /usr:/bin".toList).user_commands_
        = sampleStore.user_commands_) ∧
    ((sampleStore.loadLine "bob: ls".toList).getAllowedCommands "bob".toList
        = ["ls".toList] ∧
      (sampleStore.loadLine "bob: ls".toList).config_data_ = sampleStore.config_data_) ∧
    sampleStore.loadLine "# bob: ls".toList = sampleStore ∧
    sampleStore.loadLine "plain words".toList = sampleStore :=
  ⟨⟨by decide, (line_classification sampleStore "path = /usr:/bin".toList).1 (by decide)⟩,
   ⟨by decide,
    (line_classification sampleStore "bob: ls".toList).2.1 (by decide) (by decide)⟩,
   (line_classification sampleStore "# bob: ls".toList).2.2 (Or.inr (Or.inl (by decide))),
   (line_classification sampleStore "plain words".toList).2.2
      (Or.inr (Or.inr (by decide)))⟩


/-! ## The second parser: `PAMAuth::readVoixAllowedUsers` and `readVoixAllowedGroups` -/

/-- The trimmed text is a contiguous part of the text. -/
theorem trim_contained (s : Str) : trim s <:+: s := by
  rw [trim_eq]
  exact (List.rdropWhile_prefix isBlank _).isInfix.trans
    (List.dropWhile_suffix isBlank).isInfix

/-- A line whose trimmed key is `wanted` holds the text `wanted`. -/
theorem containsStr_of_key (wanted kt vt : Str) (hk : trim kt = wanted) :
    containsStr (kt ++ '=' :: vt) wanted = true := by
  rw [containsStr_iff, ← hk]
  exact (trim_contained kt).trans (List.prefix_append kt _).isInfix

/-- The loop body of the second parser on a line that is not empty and not a comment. -/
theorem readVoixLine_of_not_comment (wanted line : Str) (hne : line ≠ [])
    (hc : line.head? ≠ some '#') :
    PAMAuth.readVoixLine wanted line =
      if containsStr line wanted then
        match getline '=' line with
        | none => []
        | some (key, rest) =>
          match getline '\n' rest with
          | none => []
          | some (value, _) => if trim key = wanted then splitList (trim value) else []
      else [] := by
  cases line with
  | nil => exact absurd rfl hne
  | cons x xs =>
    have hx : x ≠ '#' := fun e => hc (by simp [e])
    simp only [PAMAuth.readVoixLine, hx, if_false]

/-- On a `wanted = ...` line the second parser reads the list of the text after
the first `=`. -/
theorem readVoixLine_setting (wanted kt vt : Str) (hkt : '=' ∉ kt)
    (hc : (kt ++ '=' :: vt).head? ≠ some '#') (hnl : '\n' ∉ vt) (hk : trim kt = wanted) :
    PAMAuth.readVoixLine wanted (kt ++ '=' :: vt) = splitList vt := by
  rw [readVoixLine_of_not_comment wanted _ (by simp) hc, containsStr_of_key wanted kt vt hk,
    getline_split _ _ _ hkt]
  simp only [if_true]
  by_cases hvt : vt = []
  · subst hvt
    rfl
  · rw [getline_whole _ _ hnl hvt]
    simp only [hk, if_true, splitList_trim]

/-- On any other line the second parser reads nothing. -/
theorem readVoixLine_other (wanted line : Str) (hnl : '\n' ∉ line)
    (h : ∀ kt vt : Str, line = kt ++ '=' :: vt → '=' ∉ kt → line.head? ≠ some '#' →
      trim kt ≠ wanted) :
    PAMAuth.readVoixLine wanted line = [] := by
  by_cases hne : line = []
  · subst hne
    rfl
  by_cases hc : line.head? = some '#'
  · cases line with
    | nil => exact absurd rfl hne
    | cons x xs =>
      have hx : x = '#' := by simpa using hc
      simp [PAMAuth.readVoixLine, hx]
  rw [readVoixLine_of_not_comment wanted line hne hc]
  cases containsStr line wanted
  · rfl
  · simp only [if_true]
    by_cases heq : '=' ∈ line
    · obtain ⟨kt, vt, hsplit, hkt⟩ := List.eq_append_cons_of_mem heq
      have hk := h kt vt hsplit hkt hc
      rw [hsplit, getline_split _ _ _ hkt]
      dsimp only
      cases getline '\n' vt with
      | none => rfl
      | some q => simp only [hk, if_false]
    · rw [getline_whole _ _ heq hne]
      rfl

/-- Membership in what the second parser reads from one line. -/
theorem mem_readVoixLine_iff (wanted line x : Str) (hnl : '\n' ∉ line) :
    x ∈ PAMAuth.readVoixLine wanted line ↔ ListedOnLine wanted line x := by
  constructor
  · intro hx
    by_contra hno
    have hother : ∀ kt vt : Str, line = kt ++ '=' :: vt → '=' ∉ kt →
        line.head? ≠ some '#' → trim kt ≠ wanted := by
      intro kt vt hsplit hkt hc hk
      apply hno
      have hnl' : '\n' ∉ vt := fun hm =>
        hnl (hsplit ▸ List.mem_append.2 (Or.inr (List.mem_cons_of_mem _ hm)))
      have hc' : (kt ++ '=' :: vt).head? ≠ some '#' := hsplit ▸ hc
      have hx' := hx
      rw [hsplit, readVoixLine_setting wanted kt vt hkt hc' hnl' hk] at hx'
      exact ⟨kt, vt, hsplit, hkt, hc, hk, hx'⟩
    rw [readVoixLine_other wanted line hnl hother] at hx
    exact absurd hx (List.not_mem_nil _)
  · rintro ⟨kt, vt, hsplit, hkt, hc, hk, hx⟩
    have hnl' : '\n' ∉ vt := fun hm =>
      hnl (hsplit ▸ List.mem_append.2 (Or.inr (List.mem_cons_of_mem _ hm)))
    have hc' : (kt ++ '=' :: vt).head? ≠ some '#' := hsplit ▸ hc
    rw [hsplit, readVoixLine_setting wanted kt vt hkt hc' hnl' hk]
    exact hx

/-- Membership in what the second parser reads from a whole text. -/
theorem mem_readVoixText_iff (wanted text x : Str) :
    x ∈ ((getlines '\n' text).map (PAMAuth.readVoixLine wanted)).flatten ↔
      ∃ line ∈ getlines '\n' text, ListedOnLine wanted line x := by
  rw [List.mem_flatten]
  constructor
  · rintro ⟨l, hl, hx⟩
    obtain ⟨line, hline, rfl⟩ := List.mem_map.1 hl
    exact ⟨line, hline,
      (mem_readVoixLine_iff wanted line x (getlines_not_mem '\n' text line hline)).1 hx⟩
  · rintro ⟨line, hline, hx⟩
    exact ⟨_, List.mem_map.2 ⟨line, hline, rfl⟩,
      (mem_readVoixLine_iff wanted line x (getlines_not_mem '\n' text line hline)).2 hx⟩

/-- The path of the configuration file read by the second parser has no NUL. -/
theorem c_str_voix_conf : c_str "/etc/voix.conf".toList = "/etc/voix.conf".toList := by
  decide

/-- Membership in the list of `PAMAuth::readVoixAllowedUsers`. -/
theorem mem_readVoixAllowedUsers_iff (os : OS) (x : Str) :
    x ∈ PAMAuth.readVoixAllowedUsers os ↔
      ∃ text, os.readFile "/etc/voix.conf".toList = some text ∧
        ∃ line ∈ getlines '\n' text, ListedOnLine "allowed_users".toList line x := by
  unfold PAMAuth.readVoixAllowedUsers PAMAuth.readFile
  rw [c_str_voix_conf]
  cases h : os.readFile "/etc/voix.conf".toList with
  | none => simp
  | some text =>
    simp only [Option.some.injEq, exists_eq_left']
    exact mem_readVoixText_iff _ text x

/-- Membership in the list of `PAMAuth::readVoixAllowedGroups`. -/
theorem mem_readVoixAllowedGroups_iff (os : OS) (x : Str) :
    x ∈ PAMAuth.readVoixAllowedGroups os ↔
      ∃ text, os.readFile "/etc/voix.conf".toList = some text ∧
        ∃ line ∈ getlines '\n' text, ListedOnLine "allowed_groups".toList line x := by
  unfold PAMAuth.readVoixAllowedGroups PAMAuth.readFile
  rw [c_str_voix_conf]
  cases h : os.readFile "/etc/voix.conf".toList with
  | none => simp
  | some text =>
    simp only [Option.some.injEq, exists_eq_left']
    exact mem_readVoixText_iff _ text x

/-- The two membership loops of `PAMAuth::isAllowedInVoixConfig`. -/
theorem isAllowedInVoixConfig_iff (os : OS) (name : Str) :
    PAMAuth.isAllowedInVoixConfig os name = true ↔
      (name ∈ PAMAuth.readVoixAllowedUsers os ∨
        ∃ g ∈ PAMAuth.getUserGroups os name, g ∈ PAMAuth.readVoixAllowedGroups os) := by
  have h1 : (PAMAuth.readVoixAllowedUsers os).any (fun allowed_user => allowed_user == name)
      = true ↔ name ∈ PAMAuth.readVoixAllowedUsers os := by
    rw [List.any_eq_true]
    constructor
    · rintro ⟨u, hu, he⟩
      rw [beq_iff_eq] at he
      exact he ▸ hu
    · intro h
      exact ⟨name, h, beq_self_eq_true _⟩
  have h2 := any_any_iff (PAMAuth.getUserGroups os name) (PAMAuth.readVoixAllowedGroups os)
  cases hu : (PAMAuth.readVoixAllowedUsers os).any (fun allowed_user => allowed_user == name)
  · have hn : name ∉ PAMAuth.readVoixAllowedUsers os := by
      rw [← h1, hu]
      simp
    simp only [PAMAuth.isAllowedInVoixConfig, hu, Bool.false_eq_true, if_false]
    rw [h2]
    constructor
    · intro h
      exact Or.inr h
    · rintro (h | h)
      · exact absurd h hn
      · exact h
  · simp only [PAMAuth.isAllowedInVoixConfig, hu, if_true]
    exact ⟨fun _ => Or.inl (h1.1 hu), fun _ => trivial⟩


/-- C22: `PAMAuth::isAllowedInVoixConfig(name)` is true if and only if the
configuration file it reads (`/etc/voix.conf`) can be read and either the name
is one of the non-empty trimmed comma-separated tokens of an
`allowed_users = ...` line of it, or one of the groups of `getUserGroups(name)`
is one of the non-empty trimmed tokens of an `allowed_groups = ...` line; it is
false when that file cannot be read. -/
theorem isAllowedInVoixConfig_listed (os : OS) (name : Str) :
    (PAMAuth.isAllowedInVoixConfig os name = true ↔
      ∃ text, os.readFile "/etc/voix.conf".toList = some text ∧
        ((∃ line ∈ getlines '\n' text, ListedOnLine "allowed_users".toList line name) ∨
          (∃ g ∈ PAMAuth.getUserGroups os name, ∃ line ∈ getlines '\n' text,
            ListedOnLine "allowed_groups".toList line g))) ∧
    (os.readFile "/etc/voix.conf".toList = none →
      PAMAuth.isAllowedInVoixConfig os name = false) := by
  have key : PAMAuth.isAllowedInVoixConfig os name = true ↔
      ∃ text, os.readFile "/etc/voix.conf".toList = some text ∧
        ((∃ line ∈ getlines '\n' text, ListedOnLine "allowed_users".toList line name) ∨
          (∃ g ∈ PAMAuth.getUserGroups os name, ∃ line ∈ getlines '\n' text,
            ListedOnLine "allowed_groups".toList line g)) := by
    rw [isAllowedInVoixConfig_iff, mem_readVoixAllowedUsers_iff]
    constructor
    · rintro (⟨text, hf, hl⟩ | ⟨g, hg, hm⟩)
      · exact ⟨text, hf, Or.inl hl⟩
      · obtain ⟨text, hf, hl⟩ := (mem_readVoixAllowedGroups_iff os g).1 hm
        exact ⟨text, hf, Or.inr ⟨g, hg, hl⟩⟩
    · rintro ⟨text, hf, hl | ⟨g, hg, hl⟩⟩
      · exact Or.inl ⟨text, hf, hl⟩
      · exact Or.inr ⟨g, hg, (mem_readVoixAllowedGroups_iff os g).2 ⟨text, hf, hl⟩⟩
  refine ⟨key, fun hnone => ?_⟩
  rw [← Bool.not_eq_true, key]
  rintro ⟨text, hf, _⟩
  rw [hnone] at hf
  exact absurd hf (by simp)

/-- C22 at concrete inputs on the sample machine: `bob` is allowed by the line
`allowed_users = alice, bob`; `alice`, in `wheel`, is allowed by the line
`allowed_groups = wheel`; nobody is allowed when the file cannot be read. -/
theorem isAllowedInVoixConfig_listed_witness :
    PAMAuth.isAllowedInVoixConfig
      (sampleOS 1001 (some "# c\nallowed_users = alice, bob\n".toList)) "bob".toList = true ∧
    PAMAuth.isAllowedInVoixConfig
      (sampleOS 1000 (some "allowed_groups = wheel\n".toList)) "alice".toList = true ∧
    PAMAuth.isAllowedInVoixConfig (sampleOS 1001 none) "bob".toList = false :=
  ⟨(isAllowedInVoixConfig_listed
      (sampleOS 1001 (some "# c\nallowed_users = alice, bob\n".toList)) "bob".toList).1.2
      ⟨"# c\nallowed_users = alice, bob\n".toList, by decide,
        Or.inl ⟨"allowed_users = alice, bob".toList, by decide,
          "allowed_users ".toList, " alice, bob".toList,
          by decide, by decide, by decide, by decide, by decide⟩⟩,
   (isAllowedInVoixConfig_listed
      (sampleOS 1000 (some "allowed_groups = wheel\n".toList)) "alice".toList).1.2
      ⟨"allowed_groups = wheel\n".toList, by decide,
        Or.inr ⟨"wheel".toList, by decide, "allowed_groups = wheel".toList, by decide,
          "allowed_groups ".toList, " wheel".toList,
          by decide, by decide, by decide, by decide, by decide⟩⟩,
   (isAllowedInVoixConfig_listed (sampleOS 1001 none) "bob".toList).2 (by decide)⟩

/-- C23, the claim fails when the configuration is not at `/etc/voix.conf`: the
orchestrator is constructed with `/tmp/custom.conf`, which holds the one line
`allowed_users = bob`, and the machine has no `/etc/voix.conf`. The current user
`bob` has an account, the loaded configuration lists `bob` under
`allowed_users` and holds no rule line for `bob`, yet `isAllowed()` and
`authenticate()` are false. -/
theorem allowed_user_without_rule_counterexample :
    Security.getCurrentUser
        (sampleFilesOS 1001 [("/tmp/custom.conf".toList, "allowed_users = bob\n".toList)])
      = "bob".toList ∧
    ((sampleFilesOS 1001
        [("/tmp/custom.conf".toList, "allowed_users = bob\n".toList)]).getpwnam
      "bob".toList).isSome = true ∧
    (sampleFilesOS 1001 [("/tmp/custom.conf".toList, "allowed_users = bob\n".toList)]).readFile
        "/tmp/custom.conf".toList = some "allowed_users = bob\n".toList ∧
    (Voix.construct
        (sampleFilesOS 1001 [("/tmp/custom.conf".toList, "allowed_users = bob\n".toList)])
        "/tmp/custom.conf".toList).config_.get "allowed_users".toList = some "bob".toList ∧
    (Voix.construct
        (sampleFilesOS 1001 [("/tmp/custom.conf".toList, "allowed_users = bob\n".toList)])
        "/tmp/custom.conf".toList).config_.isUserAllowed "bob".toList = true ∧
    (Voix.construct
        (sampleFilesOS 1001 [("/tmp/custom.conf".toList, "allowed_users = bob\n".toList)])
        "/tmp/custom.conf".toList).config_.user_commands_ "bob".toList = none ∧
    (Voix.construct
        (sampleFilesOS 1001 [("/tmp/custom.conf".toList, "allowed_users = bob\n".toList)])
        "/tmp/custom.conf".toList).isAllowed
      (sampleFilesOS 1001 [("/tmp/custom.conf".toList, "allowed_users = bob\n".toList)])
      = false ∧
    (Voix.construct
        (sampleFilesOS 1001 [("/tmp/custom.conf".toList, "allowed_users = bob\n".toList)])
        "/tmp/custom.conf".toList).authenticate
      (sampleFilesOS 1001 [("/tmp/custom.conf".toList, "allowed_users = bob\n".toList)])
      = false := by
  decide

/-- C23 as amended: when the current user has an account, is listed on an
`allowed_users` line of the file at the fixed path `/etc/voix.conf` (the file
`isAllowedInVoixConfig` reads, whatever path the orchestrator was constructed
with) and has no entry in the rule mapping, `isAllowed()` and `authenticate()`
are true while `Voix::validateCommand` is false for every command, and
`Voix::execute` returns 1 without calling `Utils::executeCommand`. -/
theorem allowed_user_without_rule (os : OS) (v : Voix) (text line command : Str)
    (args : List Str) (user : Option Str)
    (hexists : (os.getpwnam (c_str (Security.getCurrentUser os))).isSome = true)
    (hfile : os.readFile "/etc/voix.conf".toList = some text)
    (hline : line ∈ getlines '\n' text)
    (hlisted : ListedOnLine "allowed_users".toList line (Security.getCurrentUser os))
    (hnorule : v.config_.user_commands_ (Security.getCurrentUser os) = none) :
    v.isAllowed os = true ∧ v.authenticate os = true ∧
    v.validateCommand os command = false ∧
    (v.execute os command args user).1 = 1 ∧
    ∀ c a u, Call.executeCommand c a u ∉ (v.execute os command args user).2 := by
  have hcfg : PAMAuth.isAllowedInVoixConfig os (Security.getCurrentUser os) = true :=
    (isAllowedInVoixConfig_iff os _).2
      (Or.inl ((mem_readVoixAllowedUsers_iff os _).2 ⟨text, hfile, line, hline, hlisted⟩))
  have hallowed : v.isAllowed os = true := by
    simp [Voix.isAllowed, PAMAuth.userExists, hexists, hcfg]
  have hauth : v.authenticate os = true := by
    simp only [Voix.authenticate, PAMAuth.authenticate, PAMAuth.userExists, hexists, hcfg]
    simp only [Bool.not_true, Bool.false_eq_true, if_false]
    split_ifs <;> rfl
  have hcmd : v.validateCommand os command = false := by
    rw [validateCommand_eq]
    simp [Config.getAllowedCommands, hnorule]
  refine ⟨hallowed, hauth, hcmd, ?_⟩
  cases hu : Security.validateUser os (Security.getCurrentUser os) <;>
    simp [Voix.execute, hauth, hu, hcmd]

/-- C23 as amended, at concrete inputs: `bob` on the sample machine, whose
`/etc/voix.conf` holds `allowed_users = bob` and no rule line, asking for `rm`. -/
theorem allowed_user_without_rule_witness :
    (sampleVoix 1001 (some "allowed_users = bob\n".toList)).isAllowed
        (sampleOS 1001 (some "allowed_users = bob\n".toList)) = true ∧
    (sampleVoix 1001 (some "allowed_users = bob\n".toList)).authenticate
        (sampleOS 1001 (some "allowed_users = bob\n".toList)) = true ∧
    (sampleVoix 1001 (some "allowed_users = bob\n".toList)).validateCommand
        (sampleOS 1001 (some "allowed_users = bob\n".toList)) "rm".toList = false ∧
    ((sampleVoix 1001 (some "allowed_users = bob\n".toList)).execute
        (sampleOS 1001 (some "allowed_users = bob\n".toList)) "rm".toList ["-rf".toList]
        (some "root".toList)).1 = 1 ∧
    (∀ c a u, Call.executeCommand c a u ∉
      ((sampleVoix 1001 (some "allowed_users = bob\n".toList)).execute
        (sampleOS 1001 (some "allowed_users = bob\n".toList)) "rm".toList ["-rf".toList]
        (some "root".toList)).2) :=
  allowed_user_without_rule (sampleOS 1001 (some "allowed_users = bob\n".toList))
    (sampleVoix 1001 (some "allowed_users = bob\n".toList))
    "allowed_users = bob\n".toList "allowed_users = bob".toList "rm".toList ["-rf".toList]
    (some "root".toList) (by decide) (by decide) (by decide)
    ⟨"allowed_users ".toList, " bob".toList, by decide, by decide, by decide, by decide,
      by decide⟩
    (by decide)

/-- C28: for every identity other than the literal `root`, on every machine and
with every configuration, if `PAMAuth::authenticate(identity)` is true then
`Voix::isAllowed()` is true with that identity as current user. -/
theorem authenticate_implies_isAllowed (os : OS) (v : Voix) (identity : Str)
    (hcur : Security.getCurrentUser os = identity) (hroot : identity ≠ "root".toList)
    (hauth : PAMAuth.authenticate os identity = true) : v.isAllowed os = true := by
  have hwheel : PAMAuth.isInWheelGroup os identity = true →
      PAMAuth.isInAdminGroup os identity = true := by
    intro h
    rw [isInAdminGroup_iff]
    exact ⟨_, (isInWheelGroup_iff os identity).1 h, List.mem_cons_self _ _⟩
  unfold PAMAuth.authenticate at hauth
  rw [if_neg hroot] at hauth
  cases he : PAMAuth.userExists os identity
  · rw [he] at hauth
    exact absurd hauth (by simp)
  · cases hc : PAMAuth.isAllowedInVoixConfig os identity
    · cases hw : PAMAuth.isInWheelGroup os identity
      · cases hv : PAMAuth.isInVoixAdminGroup os identity
        · rw [he, hw, hv, hc] at hauth
          exact absurd hauth (by simp)
        · simp [Voix.isAllowed, hcur, he, hc, hv]
      · simp [Voix.isAllowed, hcur, he, hc, hwheel hw]
    · simp [Voix.isAllowed, hcur, he, hc]

/-- C28 at concrete inputs on the sample machine: `alice` (through `wheel`),
`carol` (through `voix-admin`) and `bob` (through `allowed_users`) authenticate
and are allowed; `root`, with no configuration and no administrative group,
authenticates and is not allowed. -/
theorem authenticate_implies_isAllowed_witness :
    (sampleVoix 1000 none).isAllowed (sampleOS 1000 none) = true ∧
    (sampleVoix 1002 none).isAllowed (sampleOS 1002 none) = true ∧
    (sampleVoix 1001 (some "allowed_users = bob\n".toList)).isAllowed
      (sampleOS 1001 (some "allowed_users = bob\n".toList)) = true ∧
    (PAMAuth.authenticate (sampleOS 0 none) "root".toList = true ∧
      (sampleVoix 0 none).isAllowed (sampleOS 0 none) = false) :=
  ⟨authenticate_implies_isAllowed (sampleOS 1000 none) (sampleVoix 1000 none) "alice".toList
      (by decide) (by decide) (by decide),
   authenticate_implies_isAllowed (sampleOS 1002 none) (sampleVoix 1002 none) "carol".toList
      (by decide) (by decide) (by decide),
   authenticate_implies_isAllowed (sampleOS 1001 (some "allowed_users = bob\n".toList))
      (sampleVoix 1001 (some "allowed_users = bob\n".toList)) "bob".toList
      (by decide) (by decide) (by decide),
   ⟨by decide, by decide⟩⟩


/-! ## The audit log on a refused command -/

/-- C24, evaluated on the code. Called directly, `Voix::execute` records the
refusal of a command that is not on the allow-list before it returns 1. On the
path of `main`, the same refusal is decided by the call `voix.validateCommand`
that `main` makes before `execute`, and `main` returns 1 without any call to
`Security::logEvent`: on the sample machine, with the rule `alice: ls`, the
command line `voix cat` run by `alice` ends with exit code 1 and an empty list
of calls. -/
theorem refusal_logging :
    (∀ (os : OS) (v : Voix) (command : Str) (args : List Str) (user : Option Str),
      v.authenticate os = true →
      Security.validateUser os (Security.getCurrentUser os) = true →
      v.validateCommand os command = false →
      v.execute os command args user =
        (1, [Call.logEvent ("Command execution requested: ".toList ++ command)
               (Security.getCurrentUser os),
             Call.logEvent ("Invalid command attempted: ".toList ++ command)
               (Security.getCurrentUser os)])) ∧
    (∀ (os : OS) (prog command : Str) (args : List Str),
      parseArgs (command :: args) "root".toList "/etc/voix.conf".toList =
        Parsed.run "root".toList "/etc/voix.conf".toList (command :: args) →
      (Voix.construct os "/etc/voix.conf".toList).isAllowed os = true →
      (Voix.construct os "/etc/voix.conf".toList).validateCommand os command = false →
      main os (prog :: command :: args) = (1, [])) ∧
    ((sampleVoix 1000 (some "alice: ls\n".toList)).isAllowed
        (sampleOS 1000 (some "alice: ls\n".toList)) = true ∧
      (sampleVoix 1000 (some "alice: ls\n".toList)).validateCommand
        (sampleOS 1000 (some "alice: ls\n".toList)) "cat".toList = false ∧
      main (sampleOS 1000 (some "alice: ls\n".toList)) ["voix".toList, "cat".toList]
        = (1, []) ∧
      (sampleVoix 1000 (some "alice: ls\n".toList)).execute
          (sampleOS 1000 (some "alice: ls\n".toList)) "cat".toList [] (some "root".toList)
        = (1, [Call.logEvent "Command execution requested: cat".toList "alice".toList,
               Call.logEvent "Invalid command attempted: cat".toList "alice".toList])) := by
  refine ⟨?_, ?_, by decide, by decide, by decide, by decide⟩
  · intro os v command args user ha hu hc
    simp [Voix.execute, ha, hu, hc]
  · intro os prog command args hparse hallowed hcmd
    have hlen : ¬ ((prog :: command :: args).length < 2) := by simp
    unfold main
    rw [if_neg hlen, show (prog :: command :: args).drop 1 = command :: args from rfl, hparse]
    simp only [hallowed, hcmd, Bool.not_true, Bool.false_eq_true, if_false, Bool.not_false,
      if_true]

/-! ## A process whose user id has no account -/

/-- A current user for whom `userExists` is false passes no gate. -/
theorem current_user_without_entry (os : OS) (v : Voix) (command : Str) (args : List Str)
    (user : Option Str)
    (hex : PAMAuth.userExists os (Security.getCurrentUser os) = false) :
    v.isAllowed os = false ∧ v.authenticate os = false ∧
    (v.execute os command args user).1 = 1 ∧
    ∀ c a u, Call.executeCommand c a u ∉ (v.execute os command args user).2 := by
  have hauth : v.authenticate os = false := by
    simp [Voix.authenticate, PAMAuth.authenticate, hex]
  refine ⟨?_, hauth, ?_⟩
  · simp [Voix.isAllowed, hex]
  · simp [Voix.execute, hauth]

/-- C27, evaluated on the code. When `getpwuid` finds no entry for the
effective user id, `Security::getCurrentUser` returns the name `unknown`; if no
account has that name, `isAllowed()` and `authenticate()` are false and
`Voix::execute` returns 1 without a child. On a machine with an account named
`unknown` in `wheel` and the rule `unknown: *`, a process whose user id 4242 has
no account is allowed, authenticates, and gets `/bin/true` spawned. -/
theorem unresolved_uid :
    (∀ (os : OS) (v : Voix) (command : Str) (args : List Str) (user : Option Str),
      os.getpwuid os.geteuid = none → os.getpwnam "unknown".toList = none →
      v.isAllowed os = false ∧ v.authenticate os = false ∧
      (v.execute os command args user).1 = 1 ∧
      ∀ c a u, Call.executeCommand c a u ∉ (v.execute os command args user).2) ∧
    (sampleUnknownOS.getpwuid sampleUnknownOS.geteuid = none ∧
      Security.getCurrentUser sampleUnknownOS = "unknown".toList ∧
      (Voix.construct sampleUnknownOS "/etc/voix.conf".toList).isAllowed sampleUnknownOS
        = true ∧
      (Voix.construct sampleUnknownOS "/etc/voix.conf".toList).authenticate sampleUnknownOS
        = true ∧
      (Voix.construct sampleUnknownOS "/etc/voix.conf".toList).execute sampleUnknownOS
          "/bin/true".toList [] (some "root".toList)
        = (0, [Call.logEvent "Command execution requested: /bin/true".toList
                 "unknown".toList,
               Call.executeCommand "/bin/true".toList [] (some "root".toList)])) := by
  refine ⟨?_, by decide, by decide, by decide, by decide, by decide⟩
  intro os v command args user huid hname
  have hcur : Security.getCurrentUser os = "unknown".toList := by
    unfold Security.getCurrentUser
    rw [huid]
  have hc : c_str "unknown".toList = "unknown".toList := by decide
  have hex : PAMAuth.userExists os (Security.getCurrentUser os) = false := by
    unfold PAMAuth.userExists
    rw [hcur, hc, hname]
    rfl
  exact current_user_without_entry os v command args user hex

/-! ## The child branch without an identity switch -/

/-- C29: in the child branch of `Utils::executeCommand`, when no target user is
given, or when the one given has no entry in the identity database, the child
calls neither `setuid` nor `setgid`; its first call is `execvp`, made with the
identity the process already had, and the result is that of this `execvp`. -/
theorem executeCommand_no_switch (os : OS) (command : Str) (args : List Str)
    (user : Option Str) (hfork : os.forkOk = true)
    (huser : user = none ∨ ∃ name, user = some name ∧ os.getpwnam (c_str name) = none) :
    (∀ uid, Sys.setuid uid ∉ (Utils.executeCommand os command args user).2) ∧
    (∀ gid, Sys.setgid gid ∉ (Utils.executeCommand os command args user).2) ∧
    (Utils.executeCommand os command args user).2.head? =
      some (Sys.execvp (c_str command) (c_str command :: args.map c_str)) ∧
    (Utils.executeCommand os command args user).1 =
      (match os.execvp none (c_str command) (c_str command :: args.map c_str) with
       | none => 127
       | some status => Utils.waitResult status) := by
  have hpw : (match user with
      | some name => os.getpwnam (c_str name)
      | none => none) = none := by
    rcases huser with h | ⟨name, h, hn⟩
    · subst h
      rfl
    · subst h
      exact hn
  unfold Utils.executeCommand
  simp only [hfork, hpw]
  cases os.execvp none (c_str command) (c_str command :: args.map c_str) <;>
    simp [Utils.waitResult, WIFEXITED, WEXITSTATUS]

/-- C29 at concrete inputs on the sample machine: with the target `mallory`, who
has no account, and with no target, the child of `/bin/true` makes the one call
`execvp` and the result is 0. -/
theorem executeCommand_no_switch_witness :
    Utils.executeCommand (sampleOS 0 none) "/bin/true".toList [] (some "mallory".toList)
      = (0, [Sys.execvp "/bin/true".toList ["/bin/true".toList]]) ∧
    (∀ uid, Sys.setuid uid ∉
      (Utils.executeCommand (sampleOS 0 none) "/bin/true".toList []
        (some "mallory".toList)).2) ∧
    (∀ gid, Sys.setgid gid ∉
      (Utils.executeCommand (sampleOS 0 none) "/bin/true".toList [] none).2) :=
  ⟨by decide,
   (executeCommand_no_switch (sampleOS 0 none) "/bin/true".toList [] (some "mallory".toList)
      (by decide) (Or.inr ⟨"mallory".toList, rfl, by decide⟩)).1,
   (executeCommand_no_switch (sampleOS 0 none) "/bin/true".toList [] none
      (by decide) (Or.inl rfl)).2.1⟩

/-! ## The denylist is matched on the whole command -/

/-- C30, the claim fails for the prefix `ba` and the denylisted name `sh`: the
prefix is not empty and has no shell metacharacter, but `bash` is itself on the
denylist, so `Security::validateCommand("bash", [])` is false. -/
theorem denylist_whole_match_counterexample :
    "sh".toList ∈ Security.dangerous_commands ∧ "ba".toList ≠ [] ∧
    Security.containsShellMetacharacters "ba".toList = false ∧
    Security.validateCommand ("ba".toList ++ "sh".toList) [] = false := by
  decide

/-- C30 as amended: the denylist is matched by whole-string equality only. For
every denylisted name `d` and every prefix `p` free of shell metacharacters
(non-empty or not), `Security::validateCommand(p ++ d, [])` is true whenever
`p ++ d` is not itself a denylisted name; that is the case of every prefix that
holds a `/`, such as `/bin/` and `/usr/bin/`. -/
theorem denylist_whole_match (d p : Str) (hd : d ∈ Security.dangerous_commands)
    (hmeta : Security.containsShellMetacharacters p = false) :
    (p ++ d ∉ Security.dangerous_commands → Security.validateCommand (p ++ d) [] = true) ∧
    ('/' ∈ p → Security.validateCommand (p ++ d) [] = true) := by
  have hclean : ∀ x ∈ Security.dangerous_commands,
      Security.containsShellMetacharacters x = false ∧ '/' ∉ x := by decide
  have hpd : Security.containsShellMetacharacters (p ++ d) = false := by
    unfold Security.containsShellMetacharacters at hmeta ⊢
    rw [List.any_append, hmeta]
    exact (hclean d hd).1
  have key : p ++ d ∉ Security.dangerous_commands →
      Security.validateCommand (p ++ d) [] = true := by
    intro hnot
    rw [security_validateCommand_iff]
    exact ⟨hnot, hpd, fun arg harg => absurd harg (List.not_mem_nil _)⟩
  refine ⟨key, fun hslash => key ?_⟩
  intro hmem
  exact (hclean _ hmem).2 (List.mem_append.2 (Or.inl hslash))

/-- C30 as amended, at concrete inputs: `/bin/sh` and `/usr/bin/sudo` pass the
validator. -/
theorem denylist_whole_match_witness :
    Security.validateCommand "/bin/sh".toList [] = true ∧
    Security.validateCommand "/usr/bin/sudo".toList [] = true :=
  ⟨(denylist_whole_match "sh".toList "/bin/".toList (by decide) (by decide)).2 (by decide),
   (denylist_whole_match "sudo".toList "/usr/bin/".toList (by decide) (by decide)).1
      (by decide)⟩


/-! ## The two parsers of `allowed_users` -/

/-- The value a store holds for a key after a load: that of the last setting
line for the key that has text after its `=`. -/
theorem loadText_config_data_last (c : Config) (text : Str) (pre post : List Str)
    (kt vt : Str)
    (hlines : getlines '\n' text = pre ++ (kt ++ '=' :: vt) :: post)
    (hkt : '=' ∉ kt) (hvt : vt ≠ []) (hcomment : (kt ++ '=' :: vt).head? ≠ some '#')
    (hlast : ∀ l ∈ post, ∀ kt' vt' : Str, l = kt' ++ '=' :: vt' → '=' ∉ kt' → vt' ≠ [] →
      l.head? ≠ some '#' → trim kt' ≠ trim kt) :
    (c.loadText text).config_data_ (trim kt) = some (trim vt) := by
  have hmem : ∀ l ∈ pre ++ (kt ++ '=' :: vt) :: post, '\n' ∉ l := by
    rw [← hlines]
    exact getlines_not_mem '\n' text
  have hnl : '\n' ∉ vt := by
    intro h
    exact hmem (kt ++ '=' :: vt) (by simp)
      (List.mem_append.2 (Or.inr (List.mem_cons_of_mem _ h)))
  have hpost : ∀ l ∈ post, '\n' ∉ l := fun l hl => hmem l (by simp [hl])
  unfold Config.loadText
  rw [hlines, List.foldl_append, List.foldl_cons,
    foldl_loadLine_config_data (trim kt) post _ hpost hlast,
    loadLine_of_not_comment _ _ (by simp) hcomment,
    parseConfigLine_setting _ kt vt hkt hvt hnl]
  exact Function.update_same _ _ _

/-- The text before and after the first `=` of a line are determined by the line. -/
theorem split_at_first_eq_unique (kt vt kt' vt' : Str) (hkt : '=' ∉ kt) (hkt' : '=' ∉ kt')
    (h : kt ++ '=' :: vt = kt' ++ '=' :: vt') : kt = kt' ∧ vt = vt' := by
  have h1 := takeWhile_before '=' kt vt hkt
  have h2 := takeWhile_before '=' kt' vt' hkt'
  rw [h] at h1
  have hk : kt = kt' := h1.1.symm.trans h2.1
  have hv : '=' :: vt = '=' :: vt' := h1.2.symm.trans h2.2
  exact ⟨hk, List.tail_eq_of_cons_eq hv⟩

/-- C25, the claim fails on two kinds of text. With the two lines
`allowed_users = alice` and `allowed_users = bob`, the store keeps the value
`bob` only, so `alice` matches no token there, while the list of
`PAMAuth::readVoixAllowedUsers` holds `alice` and `bob`. With the line
`allowed_users = a,,b`, the empty name matches the empty token of the stored
value, while the second parser drops empty tokens. -/
theorem parsers_agree_counterexample :
    ((Config.empty.loadText "allowed_users = alice\nallowed_users = bob\n".toList).get
        "allowed_users".toList = some "bob".toList ∧
      "alice".toList ∉ (getlines ',' "bob".toList).map trim ∧
      "alice".toList ∈ PAMAuth.readVoixAllowedUsers
        (sampleOS 0 (some "allowed_users = alice\nallowed_users = bob\n".toList))) ∧
    ((Config.empty.loadText "allowed_users = a,,b\n".toList).get
        "allowed_users".toList = some "a,,b".toList ∧
      [] ∈ (getlines ',' "a,,b".toList).map trim ∧
      [] ∉ PAMAuth.readVoixAllowedUsers
        (sampleOS 0 (some "allowed_users = a,,b\n".toList))) := by
  decide

/-- A line that lists a name under a key is a line of that key with text after
its `=`. -/
theorem settingLine_of_listed (wanted line x : Str) (h : ListedOnLine wanted line x) :
    SettingLine wanted line := by
  obtain ⟨kt, vt, hs, hk, hc, hkey, hx⟩ := h
  refine ⟨kt, vt, hs, hk, ?_, hc, hkey⟩
  rintro rfl
  simp [splitList, getlines] at hx

/-- On a line cut at its first `=`, the names listed are the tokens of the text
after that `=`. -/
theorem listedOnLine_split (wanted kt vt x : Str) (hkt : '=' ∉ kt)
    (h : ListedOnLine wanted (kt ++ '=' :: vt) x) : x ∈ splitList vt := by
  obtain ⟨kt', vt', hs, hk', _, _, hx⟩ := h
  obtain ⟨_, hv⟩ := split_at_first_eq_unique kt vt kt' vt' hkt hk' hs
  rw [hv]
  exact hx

/-- A line cut at its first `=` with nothing after it is no setting line. -/
theorem not_settingLine_empty (wanted kt : Str) (hkt : '=' ∉ kt) :
    ¬ SettingLine wanted (kt ++ '=' :: []) := by
  rintro ⟨kt', vt', hs, hk', hvt, _, _⟩
  obtain ⟨_, hv⟩ := split_at_first_eq_unique kt [] kt' vt' hkt hk' hs
  exact hvt hv.symm

/-- Among lines of which one is a setting line of a key, there is a last one. -/
theorem exists_last_settingLine (wanted : Str) (ls : List Str)
    (h : ∃ l ∈ ls, SettingLine wanted l) :
    ∃ pre last post, ls = pre ++ last :: post ∧ SettingLine wanted last ∧
      ∀ m ∈ post, ¬ SettingLine wanted m := by
  induction ls with
  | nil =>
    obtain ⟨l, hl, _⟩ := h
    exact absurd hl (List.not_mem_nil _)
  | cons a rest ih =>
    by_cases hrest : ∃ l ∈ rest, SettingLine wanted l
    · obtain ⟨pre, last, post, hls, hset, hpost⟩ := ih hrest
      exact ⟨a :: pre, last, post, by rw [hls]; rfl, hset, hpost⟩
    · obtain ⟨l, hl, hset⟩ := h
      rcases List.mem_cons.1 hl with hl | hl
      · subst hl
        exact ⟨[], l, rest, rfl, hset, fun m hm hm' => hrest ⟨m, hm, hm'⟩⟩
      · exact absurd ⟨l, hl, hset⟩ hrest

/-- A fresh store holds no value for a key after loading a text without a
setting line of that key. -/
theorem loadText_config_data_none (text wanted : Str)
    (hnone : ∀ l ∈ getlines '\n' text, ¬ SettingLine wanted l) :
    (Config.empty.loadText text).config_data_ wanted = none := by
  unfold Config.loadText
  rw [foldl_loadLine_config_data wanted (getlines '\n' text) Config.empty
    (getlines_not_mem '\n' text)
    (fun l hl kt vt hs hk hvt hc hkey => hnone l hl ⟨kt, vt, hs, hk, hvt, hc, hkey⟩)]
  rfl

/-- C25 as amended: the two parsers agree on a text in which every name listed
on an `allowed_users = ...` line is also listed on the last such line that has
text after its `=` (as in every text with at most one such line; lines with
nothing after the `=` are skipped by both parsers and do not count), and for a
non-empty name. For such a text, read by the second parser from its file and
loaded into a fresh store, and every non-empty name, the name matches a token
of the value the store holds under `allowed_users` if and only if it is in the
list of `PAMAuth::readVoixAllowedUsers`. -/
theorem parsers_agree_last_line (os : OS) (text name : Str)
    (hfile : os.readFile "/etc/voix.conf".toList = some text)
    (hsub : ∀ (pre post : List Str) (last : Str),
      getlines '\n' text = pre ++ last :: post →
      SettingLine "allowed_users".toList last →
      (∀ m ∈ post, ¬ SettingLine "allowed_users".toList m) →
      ∀ l ∈ pre, ∀ x, ListedOnLine "allowed_users".toList l x →
        ListedOnLine "allowed_users".toList last x)
    (hname : name ≠ []) :
    (∃ value, (Config.empty.loadText text).get "allowed_users".toList = some value ∧
        name ∈ (getlines ',' value).map trim) ↔
      name ∈ PAMAuth.readVoixAllowedUsers os := by
  by_cases hex : ∃ l ∈ getlines '\n' text, SettingLine "allowed_users".toList l
  · obtain ⟨pre, last, post, hlines, hset, hpost⟩ :=
      exists_last_settingLine "allowed_users".toList (getlines '\n' text) hex
    have hsub' := hsub pre post last hlines hset hpost
    obtain ⟨kt, vt, hlast, hkt, hvt, hcomment, hkey⟩ := hset
    subst hlast
    have hstore : (Config.empty.loadText text).get "allowed_users".toList = some (trim vt) := by
      have := loadText_config_data_last Config.empty text pre post kt vt hlines hkt hvt hcomment
        (fun l hl kt' vt' hs hk' hvt' hc' hkk =>
          hpost l hl ⟨kt', vt', hs, hk', hvt', hc', hkk.trans hkey⟩)
      rw [hkey] at this
      exact this
    have hsplit : name ∈ splitList vt ↔ name ∈ (getlines ',' (trim vt)).map trim := by
      rw [← splitList_trim vt]
      unfold splitList
      rw [List.mem_filter]
      constructor
      · exact fun h => h.1
      · intro h
        refine ⟨h, ?_⟩
        cases name with
        | nil => exact absurd rfl hname
        | cons _ _ => rfl
    have hpam : name ∈ PAMAuth.readVoixAllowedUsers os ↔ name ∈ splitList vt := by
      rw [mem_readVoixAllowedUsers_iff]
      constructor
      · rintro ⟨text', hf, line, hline, hlisted⟩
        rw [hfile] at hf
        cases hf
        rw [hlines] at hline
        rcases List.mem_append.1 hline with hl | hl
        · exact listedOnLine_split _ kt vt name hkt (hsub' line hl name hlisted)
        · rcases List.mem_cons.1 hl with hl | hl
          · rw [hl] at hlisted
            exact listedOnLine_split _ kt vt name hkt hlisted
          · exact absurd (settingLine_of_listed _ line name hlisted) (hpost line hl)
      · intro hx
        refine ⟨text, hfile, kt ++ '=' :: vt, ?_, kt, vt, rfl, hkt, hcomment, hkey, hx⟩
        rw [hlines]
        simp
    rw [hpam, hsplit, hstore]
    simp only [Option.some.injEq, exists_eq_left']
  · have hnone : ∀ l ∈ getlines '\n' text, ¬ SettingLine "allowed_users".toList l :=
      fun l hl hl' => hex ⟨l, hl, hl'⟩
    have hstore : (Config.empty.loadText text).get "allowed_users".toList = none :=
      loadText_config_data_none text _ hnone
    constructor
    · rintro ⟨value, hv, _⟩
      rw [hstore] at hv
      cases hv
    · intro hmem
      obtain ⟨text', hf, line, hline, hlisted⟩ := (mem_readVoixAllowedUsers_iff os name).1 hmem
      rw [hfile] at hf
      cases hf
      exact absurd (settingLine_of_listed _ line name hlisted) (hnone line hline)

/-- C25 as amended, at concrete inputs: the text has the three lines
`allowed_users = bob`, `allowed_users =` and `allowed_users = alice , bob`; the
name `bob` of the first line is listed on the last one too, the second line is
skipped by both parsers, and both parsers list `bob`. -/
theorem parsers_agree_last_line_witness :
    ((∃ value, (Config.empty.loadText
          "allowed_users = bob\nallowed_users =\nallowed_users = alice , bob\n".toList).get
          "allowed_users".toList = some value ∧
        "bob".toList ∈ (getlines ',' value).map trim) ↔
      "bob".toList ∈ PAMAuth.readVoixAllowedUsers
        (sampleOS 0 (some
          "allowed_users = bob\nallowed_users =\nallowed_users = alice , bob\n".toList))) ∧
    "bob".toList ∈ PAMAuth.readVoixAllowedUsers
      (sampleOS 0 (some
        "allowed_users = bob\nallowed_users =\nallowed_users = alice , bob\n".toList)) :=
  ⟨parsers_agree_last_line
      (sampleOS 0 (some
        "allowed_users = bob\nallowed_users =\nallowed_users = alice , bob\n".toList))
      "allowed_users = bob\nallowed_users =\nallowed_users = alice , bob\n".toList
      "bob".toList (by decide)
      (by
        intro pre post last hlines hset hpost l hl x hx
        have hthree :
            getlines '\n'
                "allowed_users = bob\nallowed_users =\nallowed_users = alice , bob\n".toList =
              ["allowed_users ".toList ++ '=' :: " bob".toList,
               "allowed_users ".toList ++ '=' :: [],
               "allowed_users ".toList ++ '=' :: " alice , bob".toList] := by decide
        rw [hthree] at hlines
        have hempty : ∀ y, ¬ ListedOnLine "allowed_users".toList
            ("allowed_users ".toList ++ '=' :: []) y := fun y hy =>
          not_settingLine_empty _ _ (by decide) (settingLine_of_listed _ _ y hy)
        rcases pre with _ | ⟨p0, _ | ⟨p1, _ | ⟨p2, pre⟩⟩⟩
        · exact absurd hl (List.not_mem_nil _)
        · simp only [List.cons_append, List.nil_append] at hlines
          injection hlines with _ hlines
          injection hlines with h1 _
          rw [← h1] at hset
          exact absurd hset (not_settingLine_empty _ _ (by decide))
        · simp only [List.cons_append, List.nil_append] at hlines
          injection hlines with h0 hlines
          injection hlines with h1 hlines
          injection hlines with h2 _
          subst h0 h1 h2
          rcases List.mem_cons.1 hl with hl | hl
          · subst hl
            have hbob := listedOnLine_split _ _ _ x (by decide) hx
            have hxb : x = "bob".toList := by
              have hlist : splitList " bob".toList = ["bob".toList] := by decide
              rw [hlist] at hbob
              exact List.mem_singleton.1 hbob
            subst hxb
            exact ⟨"allowed_users ".toList, " alice , bob".toList, rfl, by decide, by decide,
              by decide, by decide⟩
          · rcases List.mem_cons.1 hl with hl | hl
            · subst hl
              exact absurd hx (hempty x)
            · exact absurd hl (List.not_mem_nil _)
        · simp only [List.cons_append, List.nil_append] at hlines
          injection hlines with _ hlines
          injection hlines with _ hlines
          injection hlines with _ hlines
          exact absurd hlines.symm (by simp))
      (by decide),
   by decide⟩


/-! ## Which file the identity checks read -/

/-- C26, the claim fails: two machines with the same accounts hold the same
content, `allowed_users = bob`, at the path `/tmp/custom.conf` the orchestrator
is constructed with; one of them also holds it at `/etc/voix.conf`, the other
has no such file. For `bob`, `isAllowed()` and `authenticate()` are true on the
first and false on the second. -/
theorem config_path_counterexample :
    (sampleFilesOS 1001 [("/tmp/custom.conf".toList, "allowed_users = bob\n".toList),
        ("/etc/voix.conf".toList, "allowed_users = bob\n".toList)]).readFile
        "/tmp/custom.conf".toList =
      (sampleFilesOS 1001 [("/tmp/custom.conf".toList, "allowed_users = bob\n".toList)]).readFile
        "/tmp/custom.conf".toList ∧
    (Voix.construct
        (sampleFilesOS 1001 [("/tmp/custom.conf".toList, "allowed_users = bob\n".toList),
          ("/etc/voix.conf".toList, "allowed_users = bob\n".toList)])
        "/tmp/custom.conf".toList).isAllowed
      (sampleFilesOS 1001 [("/tmp/custom.conf".toList, "allowed_users = bob\n".toList),
        ("/etc/voix.conf".toList, "allowed_users = bob\n".toList)]) = true ∧
    (Voix.construct
        (sampleFilesOS 1001 [("/tmp/custom.conf".toList, "allowed_users = bob\n".toList)])
        "/tmp/custom.conf".toList).isAllowed
      (sampleFilesOS 1001 [("/tmp/custom.conf".toList, "allowed_users = bob\n".toList)])
      = false ∧
    (Voix.construct
        (sampleFilesOS 1001 [("/tmp/custom.conf".toList, "allowed_users = bob\n".toList),
          ("/etc/voix.conf".toList, "allowed_users = bob\n".toList)])
        "/tmp/custom.conf".toList).authenticate
      (sampleFilesOS 1001 [("/tmp/custom.conf".toList, "allowed_users = bob\n".toList),
        ("/etc/voix.conf".toList, "allowed_users = bob\n".toList)]) = true ∧
    (Voix.construct
        (sampleFilesOS 1001 [("/tmp/custom.conf".toList, "allowed_users = bob\n".toList)])
        "/tmp/custom.conf".toList).authenticate
      (sampleFilesOS 1001 [("/tmp/custom.conf".toList, "allowed_users = bob\n".toList)])
      = false := by
  decide

/-- C26 as amended: the configuration consulted by `isAllowedInVoixConfig`, and
so by `Voix::isAllowed` and `Voix::authenticate`, is the file at the fixed path
`/etc/voix.conf`, whatever path the orchestrator was constructed with: two
machines with the same identity state that hold the same content at
`/etc/voix.conf` give the same `isAllowed` and `authenticate` results, for any
two orchestrator objects. -/
theorem isAllowed_fixed_path (os os' : OS) (v v' : Voix)
    (heuid : os.geteuid = os'.geteuid) (hpwuid : os.getpwuid = os'.getpwuid)
    (hpwnam : os.getpwnam = os'.getpwnam) (hgrgid : os.getgrgid = os'.getgrgid)
    (hgrouplist : os.getgrouplist = os'.getgrouplist)
    (hfile : os.readFile "/etc/voix.conf".toList = os'.readFile "/etc/voix.conf".toList) :
    v.isAllowed os = v'.isAllowed os' ∧ v.authenticate os = v'.authenticate os' := by
  have hcur : Security.getCurrentUser os = Security.getCurrentUser os' := by
    unfold Security.getCurrentUser
    rw [heuid, hpwuid]
  have hex : ∀ n, PAMAuth.userExists os n = PAMAuth.userExists os' n := by
    intro n
    unfold PAMAuth.userExists
    rw [hpwnam]
  have hgroups : ∀ n, PAMAuth.getUserGroups os n = PAMAuth.getUserGroups os' n := by
    intro n
    unfold PAMAuth.getUserGroups
    rw [hpwnam, hgrgid, hgrouplist]
  have hread : ∀ path, c_str path = "/etc/voix.conf".toList →
      PAMAuth.readFile os path = PAMAuth.readFile os' path := by
    intro path hp
    unfold PAMAuth.readFile
    rw [hp, hfile]
  have husers : PAMAuth.readVoixAllowedUsers os = PAMAuth.readVoixAllowedUsers os' := by
    unfold PAMAuth.readVoixAllowedUsers
    rw [hread _ c_str_voix_conf]
  have hgrps : PAMAuth.readVoixAllowedGroups os = PAMAuth.readVoixAllowedGroups os' := by
    unfold PAMAuth.readVoixAllowedGroups
    rw [hread _ c_str_voix_conf]
  have hcfg : ∀ n, PAMAuth.isAllowedInVoixConfig os n = PAMAuth.isAllowedInVoixConfig os' n := by
    intro n
    unfold PAMAuth.isAllowedInVoixConfig
    rw [husers, hgrps, hgroups]
  have hwheel : ∀ n, PAMAuth.isInWheelGroup os n = PAMAuth.isInWheelGroup os' n := by
    intro n
    unfold PAMAuth.isInWheelGroup
    rw [hgroups]
  have hadmin : ∀ n, PAMAuth.isInAdminGroup os n = PAMAuth.isInAdminGroup os' n := by
    intro n
    unfold PAMAuth.isInAdminGroup
    rw [hgroups]
  have hvoix : ∀ n, PAMAuth.isInVoixAdminGroup os n = PAMAuth.isInVoixAdminGroup os' n := by
    intro n
    unfold PAMAuth.isInVoixAdminGroup
    rw [hgroups]
  constructor
  · simp only [Voix.isAllowed, hcur, hex, hcfg, hadmin, hvoix]
  · simp only [Voix.authenticate, PAMAuth.authenticate, hcur, hex, hwheel, hvoix, hcfg]

/-- C26 as amended, at concrete inputs: two machines with the same accounts and
the same `/etc/voix.conf`, orchestrators constructed with different paths whose
files differ; `bob` gets the same answers, and they are `true`. -/
theorem isAllowed_fixed_path_witness :
    ((Voix.construct
        (sampleFilesOS 1001 [("/etc/voix.conf".toList, "allowed_users = bob\n".toList),
          ("/tmp/a.conf".toList, "allowed_users = alice\n".toList)])
        "/tmp/a.conf".toList).isAllowed
      (sampleFilesOS 1001 [("/etc/voix.conf".toList, "allowed_users = bob\n".toList),
        ("/tmp/a.conf".toList, "allowed_users = alice\n".toList)]) =
    (Voix.construct
        (sampleFilesOS 1001 [("/etc/voix.conf".toList, "allowed_users = bob\n".toList)])
        "/tmp/b.conf".toList).isAllowed
      (sampleFilesOS 1001 [("/etc/voix.conf".toList, "allowed_users = bob\n".toList)])) ∧
    (Voix.construct
        (sampleFilesOS 1001 [("/etc/voix.conf".toList, "allowed_users = bob\n".toList)])
        "/tmp/b.conf".toList).isAllowed
      (sampleFilesOS 1001 [("/etc/voix.conf".toList, "allowed_users = bob\n".toList)])
      = true :=
  ⟨(isAllowed_fixed_path
      (sampleFilesOS 1001 [("/etc/voix.conf".toList, "allowed_users = bob\n".toList),
        ("/tmp/a.conf".toList, "allowed_users = alice\n".toList)])
      (sampleFilesOS 1001 [("/etc/voix.conf".toList, "allowed_users = bob\n".toList)])
      _ _ rfl rfl rfl rfl rfl (by decide)).1,
   by decide⟩


/-! ## Several rule lines for one identity -/

/-- One line of the loop either leaves the rule of an identity as it was, or is
a rule line for that identity: not a comment, without `=`, with the identity
before its first `:` and some text after it. -/
theorem loadLine_user_commands (c : Config) (line k : Str) (hnl : '\n' ∉ line) :
    (c.loadLine line).user_commands_ k = c.user_commands_ k ∨
      ∃ before after : Str, line = before ++ ':' :: after ∧ ':' ∉ before ∧ after ≠ [] ∧
        '=' ∉ line ∧ line.head? ≠ some '#' ∧ trim before = k := by
  rcases loadLine_eq_or c line with h0 | h0
  · left
    rw [h0]
  by_cases hne : line = []
  · subst hne
    exact Or.inl rfl
  by_cases hc : line.head? = some '#'
  · left
    cases line with
    | nil => exact absurd rfl hne
    | cons x xs =>
      have hx : x = '#' := by simpa using hc
      simp [Config.loadLine, hx]
  rw [h0]
  by_cases heq : '=' ∈ line
  · left
    rw [parseConfigLine_user_commands_of_eq c line heq]
  by_cases hcol : ':' ∈ line
  · obtain ⟨before, after, hsplit, hb⟩ := List.eq_append_cons_of_mem hcol
    by_cases ha : after = []
    · left
      have heq' : '=' ∉ before := fun h => heq (hsplit ▸ List.mem_append.2 (Or.inl h))
      rw [hsplit, ha, parseConfigLine_rule_empty c before hb heq']
    · have hnl' : '\n' ∉ after := fun h =>
        hnl (hsplit ▸ List.mem_append.2 (Or.inr (List.mem_cons_of_mem _ h)))
      have heq' : '=' ∉ before ++ ':' :: after := hsplit ▸ heq
      by_cases hk : trim before = k
      · exact Or.inr ⟨before, after, hsplit, hb, ha, heq, hc, hk⟩
      · left
        rw [hsplit, parseConfigLine_rule c before after hb ha heq' hnl']
        exact Function.update_noteq (fun e => hk e.symm) _ _
  · left
    rw [parseConfigLine_of_neither c line hcol heq]

/-- Lines none of which is a rule line for an identity leave its rule as it was. -/
theorem foldl_loadLine_user_commands (k : Str) (post : List Str) :
    ∀ c : Config, (∀ l ∈ post, '\n' ∉ l) →
      (∀ l ∈ post, ∀ before after : Str, l = before ++ ':' :: after → ':' ∉ before →
        after ≠ [] → '=' ∉ l → l.head? ≠ some '#' → trim before ≠ k) →
      (post.foldl Config.loadLine c).user_commands_ k = c.user_commands_ k := by
  induction post with
  | nil => intro c _ _; rfl
  | cons l post ih =>
    intro c hnl hlast
    rw [List.foldl_cons, ih (c.loadLine l) (fun m hm => hnl m (List.mem_cons_of_mem _ hm))
      (fun m hm => hlast m (List.mem_cons_of_mem _ hm))]
    rcases loadLine_user_commands c l k (hnl l (List.mem_cons_self _ _)) with h | h
    · exact h
    · obtain ⟨before, after, hsplit, hb, ha, heq, hc, hk⟩ := h
      exact absurd hk (hlast l (List.mem_cons_self _ _) before after hsplit hb ha heq hc)

/-- C31, the claim fails on the text `alice: ls` / `alice:`: both lines hold a
`:` and no `=`, are not comments and have the trimmed name `alice`; the later
one has nothing after its `:`, so its list is empty, yet after loading
`getAllowedCommands("alice")` is still `["ls"]`: the later line is skipped, it
does not replace the earlier one. -/
theorem last_rule_line_counterexample :
    getlines '\n' "alice: ls\nalice:\n".toList = ["alice: ls".toList, "alice:".toList] ∧
    (':' ∈ "alice:".toList ∧ '=' ∉ "alice:".toList ∧ "alice:".toList.head? ≠ some '#') ∧
    trim ("alice:".toList.takeWhile (fun ch => ch != ':')) = "alice".toList ∧
    splitList (("alice:".toList.dropWhile (fun ch => ch != ':')).drop 1) = [] ∧
    (Config.empty.loadText "alice: ls\nalice:\n".toList).getAllowedCommands "alice".toList
      = ["ls".toList] ∧
    (Config.empty.loadText "alice: ls\nalice:\n".toList).getAllowedCommands "alice".toList
      ≠ [] := by
  decide

/-- C31 as amended: among the rule lines that have text after their first `:`,
the later one replaces the earlier one entirely. If, among the lines of a
configuration text, a rule line (not a comment, without `=`, the name before
its first `:`, at least one character after it) is followed by no later such
line with the same trimmed name, then after loading `getAllowedCommands` of the
trimmed name is exactly the list read from that line, whatever earlier lines
stored for the name: the lists are not merged. -/
theorem last_rule_line (c : Config) (text : Str) (pre post : List Str) (before after : Str)
    (hlines : getlines '\n' text = pre ++ (before ++ ':' :: after) :: post)
    (hcolon : ':' ∉ before) (hafter : after ≠ [])
    (heq : '=' ∉ before ++ ':' :: after)
    (hcomment : (before ++ ':' :: after).head? ≠ some '#')
    (hlast : ∀ l ∈ post, ∀ before' after' : Str, l = before' ++ ':' :: after' →
      ':' ∉ before' → after' ≠ [] → '=' ∉ l → l.head? ≠ some '#' →
      trim before' ≠ trim before) :
    (c.loadText text).getAllowedCommands (trim before) = splitList after := by
  have hmem : ∀ l ∈ pre ++ (before ++ ':' :: after) :: post, '\n' ∉ l := by
    rw [← hlines]
    exact getlines_not_mem '\n' text
  have hnl : '\n' ∉ after := by
    intro h
    exact hmem (before ++ ':' :: after) (by simp)
      (List.mem_append.2 (Or.inr (List.mem_cons_of_mem _ h)))
  have hpost : ∀ l ∈ post, '\n' ∉ l := fun l hl => hmem l (by simp [hl])
  have key : (c.loadText text).user_commands_ (trim before) = some (splitList after) := by
    unfold Config.loadText
    rw [hlines, List.foldl_append, List.foldl_cons,
      foldl_loadLine_user_commands (trim before) post _ hpost hlast,
      loadLine_of_not_comment _ _ (by simp) hcomment,
      parseConfigLine_rule _ before after hcolon hafter heq hnl]
    exact Function.update_same _ _ _
  simp only [Config.getAllowedCommands, key]

/-- C31 as amended, at concrete inputs: after `alice: ls` followed by
`alice: whoami` the list is exactly `["whoami"]`; after `alice: *` followed by
`alice: ls` it is `["ls"]`, without the wildcard. -/
theorem last_rule_line_witness :
    (Config.empty.loadText "alice: ls\nalice: whoami\n".toList).getAllowedCommands
        "alice".toList = ["whoami".toList] ∧
    (Config.empty.loadText "alice: *\nalice: ls\n".toList).getAllowedCommands
        "alice".toList = ["ls".toList] :=
  ⟨(last_rule_line Config.empty "alice: ls\nalice: whoami\n".toList
      ["alice: ls".toList] [] "alice".toList " whoami".toList
      (by decide) (by decide) (by decide) (by decide) (by decide) (by simp)).trans
      (by decide),
   (last_rule_line Config.empty "alice: *\nalice: ls\n".toList
      ["alice: *".toList] [] "alice".toList " ls".toList
      (by decide) (by decide) (by decide) (by decide) (by decide) (by simp)).trans
      (by decide)⟩

end Voix
